import Mathlib

/-!
Verification of the quizr daily-question service.

This file gives a shallow embedding of the core logic of the repository:

* the text cleaning functions of the Supabase edge functions
  (`cleanText` in the get-or-create handler, `sanitizeText` and
  `validateQuestionData` in the trivia-fetch handler),
* the in-memory `RateLimiter` of the trivia-fetch handler,
* the database tables (`daily_questions`, `user_question_attempts`,
  with their UNIQUE constraints from the migration) and the three
  request handlers that operate on them: the get-or-create daily
  question handler, the completion handler bundled with it, and the
  standalone mark-completed handler.

Concurrency is modelled by an interleaving semantics: each in-flight
invocation of the get-or-create handler is a small state machine whose
atomic steps are its awaited database operations; a schedule picks which
invocation steps next.
-/

/-! ## JS-style global string replacement

`String.prototype.replace` with a `/g` pattern scans the subject left to
right; at each position it tries the pattern, on a match it emits the
replacement and resumes after the matched text, otherwise it emits the
character and moves one position right.  A `Matcher` inspects a suffix of
the subject; on success it returns the replacement characters together
with `k` such that `k + 1` characters of the suffix were matched (every
pattern in the source matches at least one character). -/

def Matcher : Type := List Char → Option (List Char × Nat)

def replaceGo (m : Matcher) : Nat → List Char → List Char
  | _, [] => []
  | 0, s => s
  | fuel + 1, c :: cs =>
    match m (c :: cs) with
    | some (rep, k) => rep ++ replaceGo m fuel (cs.drop k)
    | none => c :: replaceGo m fuel cs

def replaceAll (m : Matcher) (s : List Char) : List Char :=
  replaceGo m s.length s

def strChars (s : String) : List Char := s.data

def apos : Char := Char.ofNat 39

def dquote : Char := Char.ofNat 34

/-- Matcher for a fixed, case-sensitive pattern (a regex with no
metacharacters), e.g. the entity rewrites of the source. -/
def matchLit (pat rep : List Char) : Matcher := fun s =>
  if pat.isPrefixOf s ∧ pat ≠ [] then some (rep, pat.length - 1) else none

/-- ASCII-case-insensitive prefix test; `pat` is given lowercased. -/
def ciPrefixOf (pat s : List Char) : Bool :=
  pat.isPrefixOf (s.map Char.toLower)

/-- Matcher for a fixed pattern under the `i` flag, e.g. `javascript:`. -/
def matchLitCI (pat rep : List Char) : Matcher := fun s =>
  if ciPrefixOf pat s ∧ pat ≠ [] then some (rep, pat.length - 1) else none

/-- Matcher for the tag-stripping regex `<[^>]*>` (g flag): the greedy
`[^>]*` cannot cross a `>`, so a match runs from a `<` to the first
following `>`, and fails when there is none. -/
def matchTag : Matcher := fun s =>
  match s with
  | '<' :: rest =>
    match rest.findIdx? (· == '>') with
    | some i => some ([], i + 1)
    | none => none
  | _ => none

/-- JS `.` without the `s` flag: any character except line terminators. -/
def isDot (c : Char) : Bool := !(c == '\n' || c == '\r')

/-- Scan for the non-greedy `.*?<\/script>` tail of the script regex:
the least offset at which `</script>` (case-insensitively) starts, with
only `.`-matchable characters before it; `none` when a line terminator
intervenes or the subject ends first. -/
def findScriptClose : List Char → Option Nat
  | [] => none
  | c :: cs =>
    if ciPrefixOf (strChars "</script>") (c :: cs) then some 0
    else if isDot c then (findScriptClose cs).map (· + 1)
    else none

/-- Matcher for `<script[^>]*>.*?<\/script>` (gi flags): `<script`, then
greedily up to the first `>`, then non-greedily up to `</script>`. -/
def matchScriptBlock : Matcher := fun s =>
  if ciPrefixOf (strChars "<script") s then
    match (s.drop 7).findIdx? (· == '>') with
    | some i =>
      match findScriptClose ((s.drop 7).drop (i + 1)) with
      | some j => some ([], 7 + (i + 1) + j + 9 - 1)
      | none => none
    | none => none
  else none

/-- JS `\w`: ASCII letters, digits and underscore. -/
def isWordChar (c : Char) : Bool := c.isAlphanum || c == '_'

/-- JS `\s`, restricted to the ASCII whitespace characters. -/
def isJsSpace (c : Char) : Bool :=
  c == ' ' || c == '\t' || c == '\n' || c == '\r' || c == '\x0b' || c == '\x0c'

/-- Matcher for the event-handler regex `on\w+\s*=` (gi flags); the
greedy `\w+` and `\s*` are deterministic here because neither class
matches `=`. -/
def matchOnHandler : Matcher := fun s =>
  match s with
  | c1 :: c2 :: rest =>
    if c1.toLower == 'o' && c2.toLower == 'n' then
      let w := rest.takeWhile isWordChar
      if w.isEmpty then none
      else
        let rest2 := rest.drop w.length
        let sp := rest2.takeWhile isJsSpace
        match rest2.drop sp.length with
        | '=' :: _ => some ([], 2 + w.length + sp.length)
        | _ => none
    else none
  | _ => none

/-- Matcher for the whitespace-collapsing regex `\s+` (g flag), replaced
by a single space. -/
def matchWsRun : Matcher := fun s =>
  match s with
  | c :: cs =>
    if isJsSpace c then some ([' '], (cs.takeWhile isJsSpace).length) else none
  | [] => none

/-- JS `String.prototype.trim`: strip whitespace from both ends. -/
def jsTrim (s : List Char) : List Char :=
  ((s.dropWhile isJsSpace).reverse.dropWhile isJsSpace).reverse

/-! ## `cleanText` (get-or-create handler)

The get-or-create daily question handler decodes six HTML entities in
the text fetched from OpenTriviaDB before inserting it. -/

def cleanTextL (t : List Char) : List Char :=
  let s := replaceAll (matchLit (strChars "&quot;") [dquote]) t
  let s := replaceAll (matchLit (strChars "&#039;") [apos]) s
  let s := replaceAll (matchLit (strChars "&amp;") (strChars "&")) s
  let s := replaceAll (matchLit (strChars "&lt;") (strChars "<")) s
  let s := replaceAll (matchLit (strChars "&gt;") (strChars ">")) s
  replaceAll (matchLit (strChars "&nbsp;") (strChars " ")) s

def cleanText (s : String) : String := ⟨cleanTextL s.data⟩

/-! ## `sanitizeText` (trivia-fetch handler)

Sequential chain of replacements exactly as in the source: script-block
removal, tag stripping, `javascript:` and event-handler removal, encoded
script-tag removal, thirteen entity decodings, then trim and whitespace
collapsing.  (The source first throws on non-string input; the Lean type
enforces that.) -/

def sanitizeTextL (t : List Char) : List Char :=
  let s := replaceAll matchScriptBlock t
  let s := replaceAll matchTag s
  let s := replaceAll (matchLitCI (strChars "javascript:") []) s
  let s := replaceAll matchOnHandler s
  let s := replaceAll (matchLitCI (strChars "&lt;script") []) s
  let s := replaceAll (matchLitCI (strChars "&lt;/script") []) s
  let s := replaceAll (matchLit (strChars "&quot;") [dquote]) s
  let s := replaceAll (matchLit (strChars "&#039;") [apos]) s
  let s := replaceAll (matchLit (strChars "&amp;") (strChars "&")) s
  let s := replaceAll (matchLit (strChars "&lt;") (strChars "<")) s
  let s := replaceAll (matchLit (strChars "&gt;") (strChars ">")) s
  let s := replaceAll (matchLit (strChars "&nbsp;") (strChars " ")) s
  let s := replaceAll (matchLit (strChars "&hellip;") (strChars "...")) s
  let s := replaceAll (matchLit (strChars "&mdash;") (strChars "-")) s
  let s := replaceAll (matchLit (strChars "&ndash;") (strChars "-")) s
  let s := replaceAll (matchLit (strChars "&rsquo;") [apos]) s
  let s := replaceAll (matchLit (strChars "&lsquo;") [apos]) s
  let s := replaceAll (matchLit (strChars "&rdquo;") [dquote]) s
  let s := replaceAll (matchLit (strChars "&ldquo;") [dquote]) s
  replaceAll matchWsRun (jsTrim s)

def sanitizeText (s : String) : String := ⟨sanitizeTextL s.data⟩

/-! ## JSON values

The trivia-fetch handler validates an untyped (`any`) parsed JSON value.
We model such values, with JS `undefined` (absent object fields)
collapsed into `null`: the source only ever distinguishes the two
through truthiness and `typeof` checks on which they agree for the
types occurring here. -/

inductive JVal where
  | null : JVal
  | bool : Bool → JVal
  | num : Int → JVal
  | str : String → JVal
  | arr : List JVal → JVal
  | obj : List (String × JVal) → JVal

/-- JS truthiness of a value (NaN does not arise in the model). -/
def JVal.truthy : JVal → Bool
  | .null => false
  | .bool b => b
  | .num n => n != 0
  | .str s => s != ""
  | .arr _ => true
  | .obj _ => true

/-- JS `typeof v === "object"` (true for objects, arrays and null). -/
def JVal.isObjectType : JVal → Bool
  | .null => true
  | .arr _ => true
  | .obj _ => true
  | _ => false

/-- JS `typeof v === "number"`. -/
def JVal.isNumberType : JVal → Bool
  | .num _ => true
  | _ => false

/-- Property access `v.k`; absent fields and non-objects give the
collapsed `undefined`/`null`. -/
def JVal.getField (v : JVal) (k : String) : JVal :=
  match v with
  | .obj fs =>
    match fs.find? (fun kv => kv.1 == k) with
    | some kv => kv.2
    | none => .null
  | _ => .null

/-! ## `validateQuestionData` (trivia-fetch handler) -/

def MAX_QUESTION_LENGTH : Nat := 500

def MAX_ANSWER_LENGTH : Nat := 200

def MAX_ANSWERS_COUNT : Nat := 10

structure ValidatedQuestion where
  question : String
  correct_answer : String
  incorrect_answers : List String
  category : Option String
  type : Option String
  difficulty : Option String
deriving DecidableEq

/-- The `incorrect_answers.map` of the source: validates and sanitizes
each answer in order, failing at the first violation.  (The source
interpolates the offending index and length into its messages; we keep
the constant message prefixes.) -/
def sanitizeAnswers : List JVal → Except String (List String)
  | [] => .ok []
  | a :: rest =>
    match a with
    | .str s =>
      let t := sanitizeText s
      if t.length = 0 then
        .error "Invalid question data: incorrect answer is empty after sanitization"
      else if t.length > MAX_ANSWER_LENGTH then
        .error "Invalid question data: incorrect answer too long"
      else
        (sanitizeAnswers rest).map (fun l => t :: l)
    | _ => .error "Invalid question data: incorrect answer is not a string"

/-- Optional-field copying of the source: `if (question.f && typeof
question.f === "string") validated.f = sanitizeText(question.f)`. -/
def optStrField (q : JVal) (k : String) : Option String :=
  match q.getField k with
  | .str s => if s = "" then none else some (sanitizeText s)
  | _ => none

/-- The incorrect-answers checks of `validateQuestionData` and the
construction of the validated record. -/
def validateIncorrectSection (q0 : JVal) (sq sca : String) :
    Except String ValidatedQuestion :=
  match q0.getField "incorrect_answers" with
  | .arr ians =>
    if ians.length = 0 ∨ ians.length > MAX_ANSWERS_COUNT then
      .error "Invalid question data: incorrect answers count out of range"
    else
      match sanitizeAnswers ians with
      | .error e => .error e
      | .ok sians =>
        .ok { question := sq
              correct_answer := sca
              incorrect_answers := sians
              category := optStrField q0 "category"
              type := optStrField q0 "type"
              difficulty := optStrField q0 "difficulty" }
  | _ => .error "Invalid question data: missing or invalid incorrect answers array"

/-- The correct-answer checks of `validateQuestionData`. -/
def validateCorrectSection (q0 : JVal) (sq : String) :
    Except String ValidatedQuestion :=
  match q0.getField "correct_answer" with
  | .str cas =>
    if cas = "" then
      .error "Invalid question data: missing or invalid correct answer"
    else
      let sca := sanitizeText cas
      if sca.length = 0 then
        .error "Invalid question data: empty correct answer after sanitization"
      else if sca.length > MAX_ANSWER_LENGTH then
        .error "Invalid question data: correct answer too long"
      else
        validateIncorrectSection q0 sq sca
  | _ => .error "Invalid question data: missing or invalid correct answer"

/-- The question-structure and question-text checks of
`validateQuestionData`. -/
def validateQuestionSection (q0 : JVal) : Except String ValidatedQuestion :=
  if ¬ (q0.truthy ∧ q0.isObjectType) then
    .error "Invalid question data: not an object"
  else
    match q0.getField "question" with
    | .str qs =>
      if qs = "" then
        .error "Invalid question data: missing or invalid question text"
      else
        let sq := sanitizeText qs
        if sq.length = 0 then
          .error "Invalid question data: empty question after sanitization"
        else if sq.length > MAX_QUESTION_LENGTH then
          .error "Invalid question data: question too long"
        else
          validateCorrectSection q0 sq
    | _ => .error "Invalid question data: missing or invalid question text"

/-- Validation of the OpenTriviaDB response, translated check-for-check
from the source (split into per-field sections, composed in source
order).  A falsy-or-non-string field check `!x || typeof x !==
"string"` passes exactly the non-empty strings, which the `.str`
match-plus-emptiness test mirrors. -/
def validateQuestionData (data : JVal) : Except String ValidatedQuestion :=
  if ¬ (data.truthy ∧ data.isObjectType) then
    .error "Invalid API response: not an object"
  else if ¬ (data.getField "response_code").isNumberType then
    .error "Invalid API response: missing or invalid response_code"
  else
    match data.getField "results" with
    | .arr (q0 :: _) => validateQuestionSection q0
    | _ => .error "Invalid API response: missing or empty results array"

/-! ## The in-memory `RateLimiter` (trivia-fetch handler)

The store is a JS `Map`, modelled as an association list in insertion
order: `Map.set` on a present key updates the entry in place, on an
absent key it appends; `Map.delete` removes the entry.  Timestamps
(`Date.now()`) are explicit `Nat` parameters. -/

structure RateLimitRecord where
  count : Nat
  resetTime : Nat
  lastAccess : Nat
deriving DecidableEq

structure RateLimiter where
  store : List (String × RateLimitRecord)
  windowMs : Nat
  maxRequests : Nat
  maxStoreSize : Nat
  cleanupIntervalMs : Nat
  lastCleanup : Nat
deriving DecidableEq

/-- The constructor; `lastCleanup` is initialised to the construction
time. -/
def RateLimiter.new (windowMs maxRequests maxStoreSize cleanupIntervalMs now : Nat) :
    RateLimiter :=
  ⟨[], windowMs, maxRequests, maxStoreSize, cleanupIntervalMs, now⟩

/-- The constructor defaults: 1-minute window, 10 requests, 1000 keys,
5-minute cleanup interval. -/
def RateLimiter.mkDefault (now : Nat) : RateLimiter :=
  RateLimiter.new (60 * 1000) 10 1000 (5 * 60 * 1000) now

def storeGet (s : List (String × RateLimitRecord)) (k : String) :
    Option RateLimitRecord :=
  match s.find? (fun e => e.1 == k) with
  | some e => some e.2
  | none => none

def storeSet : List (String × RateLimitRecord) → String → RateLimitRecord →
    List (String × RateLimitRecord)
  | [], k, v => [(k, v)]
  | e :: es, k, v => if e.1 = k then (k, v) :: es else e :: storeSet es k v

def storeDelete (s : List (String × RateLimitRecord)) (k : String) :
    List (String × RateLimitRecord) :=
  s.eraseP (fun e => e.1 == k)

/-- `cleanup(now)`: collect the keys of entries expired for more than
one window, then delete each. -/
def RateLimiter.cleanup (rl : RateLimiter) (now : Nat) : RateLimiter :=
  let expiredKeys :=
    (rl.store.filter (fun e => now > e.2.resetTime + rl.windowMs)).map (fun e => e.1)
  { rl with store := expiredKeys.foldl storeDelete rl.store }

/-- `performCleanupIfNeeded(now)`; the `now - lastCleanup` is JS number
subtraction, hence the `Int` comparison. -/
def RateLimiter.performCleanupIfNeeded (rl : RateLimiter) (now : Nat) : RateLimiter :=
  if (now : Int) - (rl.lastCleanup : Int) < (rl.cleanupIntervalMs : Int) then rl
  else { rl.cleanup now with lastCleanup := now }

/-- `evictOldestEntries()`: sort the entries by last-access time (JS
`sort` is stable; `List.insertionSort` with a total preorder is the
stable sort) and delete the keys of the oldest 25% —
`Math.floor(n * 0.25)` computes exactly `n / 4` (the float product is
exact). -/
def RateLimiter.evictOldestEntries (rl : RateLimiter) : RateLimiter :=
  let entries := rl.store.insertionSort (fun a b => a.2.lastAccess ≤ b.2.lastAccess)
  let toRemove := entries.length / 4
  { rl with store := ((entries.take toRemove).map (fun e => e.1)).foldl storeDelete rl.store }

/-- `isRateLimited(clientId)` at time `now`, returning the result and
the updated limiter.  The in-place `record.lastAccess = now` mutation of
the source persists in the map even on the rate-limited path, hence the
write-back in every branch. -/
def RateLimiter.isRateLimited (rl₀ : RateLimiter) (clientId : String) (now : Nat) :
    Bool × RateLimiter :=
  let rl := rl₀.performCleanupIfNeeded now
  match storeGet rl.store clientId with
  | none =>
    let rl₁ := if rl.store.length ≥ rl.maxStoreSize then rl.evictOldestEntries else rl
    (false, { rl₁ with store := storeSet rl₁.store clientId ⟨1, now + rl.windowMs, now⟩ })
  | some r =>
    if now > r.resetTime then
      (false, { rl with store := storeSet rl.store clientId ⟨1, now + rl.windowMs, now⟩ })
    else
      let r₁ : RateLimitRecord := ⟨r.count, r.resetTime, now⟩
      if r₁.count < rl.maxRequests then
        (false, { rl with store := storeSet rl.store clientId ⟨r₁.count + 1, r₁.resetTime, now⟩ })
      else
        (true, { rl with store := storeSet rl.store clientId r₁ })

/-- A sequence of `isRateLimited` calls, each a `(clientId, now)` pair. -/
def RateLimiter.run : RateLimiter → List (String × Nat) → List Bool × RateLimiter
  | rl, [] => ([], rl)
  | rl, (c, t) :: rest =>
    let p := rl.isRateLimited c t
    let q := p.2.run rest
    (p.1 :: q.1, q.2)

/-! ## Database model

The two tables of the migration, with their UNIQUE constraints
(`daily_questions.question_date`; `user_question_attempts(device_id,
question_date)`) enforced by the insert operations: an insert whose key
is already present fails with the Postgres uniqueness-violation code
23505.  Generated UUIDs are modelled by a counter; `created_at` and
`updated_at` timestamps are `Nat`s (their values are irrelevant to the
claims). -/

structure QuestionRow where
  id : Nat
  question_date : String
  question_text : String
  correct_answer : String
  incorrect_answers : List String
deriving DecidableEq

structure AttemptRow where
  id : Nat
  device_id : String
  question_date : String
  daily_question_id : Nat
  has_attempted : Bool
  is_completed : Bool
  updated_at : Nat
deriving DecidableEq

structure DB where
  daily_questions : List QuestionRow
  user_question_attempts : List AttemptRow
  nextId : Nat
deriving DecidableEq

/-- `select().eq('question_date', d).single()`: the row for the date, if
any (`.single()` reports PGRST116 when there is none, which the handlers
treat as not-found). -/
def selectQuestion (db : DB) (d : String) : Option QuestionRow :=
  db.daily_questions.find? (fun q => q.question_date == d)

/-- `select().eq('device_id', dev).eq('question_date', d).single()`. -/
def selectAttempt (db : DB) (dev d : String) : Option AttemptRow :=
  db.user_question_attempts.find? (fun a => a.device_id == dev && a.question_date == d)

/-- Whether an insert into `daily_questions` for date `d` violates the
UNIQUE constraint. -/
def questionConflict (db : DB) (d : String) : Bool :=
  db.daily_questions.any (fun q => q.question_date == d)

/-- Whether an insert into `user_question_attempts` for `(dev, d)`
violates the UNIQUE constraint. -/
def attemptConflict (db : DB) (dev d : String) : Bool :=
  db.user_question_attempts.any (fun a => a.device_id == dev && a.question_date == d)

def insertQuestionRow (db : DB) (t : QuestionRow) : DB :=
  { db with daily_questions := db.daily_questions ++ [t], nextId := db.nextId + 1 }

def insertAttemptRow (db : DB) (a : AttemptRow) : DB :=
  { db with
    user_question_attempts := db.user_question_attempts ++ [a]
    nextId := db.nextId + 1 }

/-! ## Request headers and device-identifier derivation

JS `x || y` takes `y` when `x` is `null` or the empty string. -/

structure Headers where
  xDeviceId : Option String
  xForwardedFor : Option String
deriving DecidableEq

def orFalsy (v : Option String) (d : String) : String :=
  match v with
  | some s => if s = "" then d else s
  | none => d

/-- Device id of the get-or-create handler:
`req.headers.get('x-device-id') || 'anonymous'`. -/
def gocDeviceId (h : Headers) : String := orFalsy h.xDeviceId "anonymous"

/-- Device id of the completion handler inside mark-question-completed:
`req.headers.get('x-device-id') || req.headers.get('x-forwarded-for') ||
'anonymous'`. -/
def mqcDeviceId (h : Headers) : String :=
  orFalsy h.xDeviceId (orFalsy h.xForwardedFor "anonymous")

/-- Device id of the standalone mark-completed handler:
`req.headers.get('x-device-id') || 'anonymous'`. -/
def mcDeviceId (h : Headers) : String := orFalsy h.xDeviceId "anonymous"

/-! ## Responses

Bodies are modelled structurally; the two error shapes of the source are
kept distinct: `errTs` is a `JSON.stringify` of an object with `error`
and `timestamp` fields, `errPlain` one with only an `error` field. -/

inductive RespBody where
  | questionOk (id : Nat) (question : String) (correct_answer : String)
      (incorrect_answers : List String)
      (has_attempted is_completed can_attempt : Bool)
  | completedOk (has_attempted is_completed can_attempt : Bool)
  | errTs (error : String)
  | errPlain (error : String)
deriving DecidableEq

structure HttpResponse where
  status : Nat
  body : RespBody
deriving DecidableEq

/-- PostgREST message for `.single()` with no matching row. -/
def pgrstNoRowMsg : String := "JSON object requested, multiple (or no) rows returned"

def fetchFailMsg : String := "OpenTriviaDB API error"

def duplicateKeyMsg : String := "duplicate key value violates unique constraint"

def attemptInsertErrMsg : String := "Attempt insert error: " ++ duplicateKeyMsg

/-- Message of the TypeError raised by `questionData.id` when
`questionData` is null. -/
def nullDerefMsg : String := "Cannot read properties of null"

/-! ## The get-or-create daily question handler

One in-flight invocation is a state machine whose atomic transitions are
its awaited database operations (STEP 1 select, STEP 3 insert, the 23505
recovery re-select, STEP 4 select+branch, STEP 4 insert).  The external
OpenTriviaDB fetch is part of the invocation's environment: `trivia =
none` models a failed fetch (non-ok HTTP status or nonzero
response_code).  `recoveryFails` injects a persistence failure into the
recovery re-select — the one database call whose error the source
discards (`const { data: raceQuestion } = await ...`); every other
database call is modelled as succeeding. -/

structure RawTrivia where
  question : String
  correct_answer : String
  incorrect_answers : List String
deriving DecidableEq

structure GocEnv where
  today : String
  deviceId : String
  trivia : Option RawTrivia
  recoveryFails : Bool
deriving DecidableEq

inductive GocPhase where
  | start
  | insertQ (t : RawTrivia)
  | recoverQ
  | attemptSel (qd : Option QuestionRow)
  | attemptIns (q : QuestionRow)
  | finished (resp : HttpResponse)
deriving DecidableEq

/-- The 200-response of STEP 5 built from the question row and the
user-attempt row. -/
def gocOkResponse (q : QuestionRow) (a : AttemptRow) : HttpResponse :=
  ⟨200, .questionOk q.id q.question_text q.correct_answer q.incorrect_answers
    a.has_attempted a.is_completed (!a.is_completed)⟩

/-- One atomic step of a get-or-create invocation. -/
def gocStep (env : GocEnv) : GocPhase → DB → GocPhase × DB
  | .start, db =>
    -- STEP 1: look for today's question; found rows skip to STEP 4,
    -- otherwise the OpenTriviaDB fetch runs (no database effect).
    match selectQuestion db env.today with
    | some q => (.attemptSel (some q), db)
    | none =>
      match env.trivia with
      | none => (.finished ⟨500, .errTs fetchFailMsg⟩, db)
      | some t => (.insertQ t, db)
  | .insertQ t, db =>
    -- STEP 3: conflict-checked insert of the cleaned question.
    if questionConflict db env.today then (.recoverQ, db)
    else
      let row : QuestionRow :=
        ⟨db.nextId, env.today, cleanText t.question, cleanText t.correct_answer,
          t.incorrect_answers.map cleanText⟩
      (.attemptSel (some row), insertQuestionRow db row)
  | .recoverQ, db =>
    -- 23505 recovery: re-select by date, ignoring any error of the
    -- re-query (a failure leaves questionData null).
    (.attemptSel (if env.recoveryFails then none else selectQuestion db env.today), db)
  | .attemptSel qd, db =>
    -- STEP 4 select; with questionData null the subsequent
    -- `questionData.id` access throws, caught as a 500.
    match selectAttempt db env.deviceId env.today, qd with
    | some a, some q => (.finished (gocOkResponse q a), db)
    | some _, none => (.finished ⟨500, .errTs nullDerefMsg⟩, db)
    | none, some q => (.attemptIns q, db)
    | none, none => (.finished ⟨500, .errTs nullDerefMsg⟩, db)
  | .attemptIns q, db =>
    -- STEP 4 insert: any insert error — including 23505 from a
    -- concurrent duplicate — is thrown, not recovered.
    if attemptConflict db env.deviceId env.today then
      (.finished ⟨500, .errTs attemptInsertErrMsg⟩, db)
    else
      let row : AttemptRow := ⟨db.nextId, env.deviceId, env.today, q.id, false, false, 0⟩
      (.finished (gocOkResponse q row), insertAttemptRow db row)
  | .finished r, db => (.finished r, db)

/-! ## The two completion handlers

Both run a single awaited update `set has_attempted = true, is_completed
= true, updated_at = now where device_id = dev and question_date = today`
followed by `.select().single()`: the update applies to every matching
row, and `.single()` errors unless exactly one row matched. -/

def markCompletedCore (dev today : String) (now : Nat) (db : DB) :
    Except String AttemptRow × DB :=
  let updated := db.user_question_attempts.map (fun a =>
    if a.device_id == dev && a.question_date == today then
      { a with has_attempted := true, is_completed := true, updated_at := now }
    else a)
  let db' : DB := { db with user_question_attempts := updated }
  match updated.filter (fun a => a.device_id == dev && a.question_date == today) with
  | [a] => (.ok a, db')
  | _ => (.error pgrstNoRowMsg, db')

/-- The standalone mark-completed function; its catch-block body carries
the thrown message and a timestamp. -/
def markCompletedHandler (h : Headers) (today : String) (now : Nat) (db : DB) :
    HttpResponse × DB :=
  match markCompletedCore (mcDeviceId h) today now db with
  | (.ok a, db') => (⟨200, .completedOk a.has_attempted a.is_completed false⟩, db')
  | (.error m, db') =>
    (⟨500, .errTs ("Failed to mark question as completed: " ++ m)⟩, db')

/-- The completion handler bundled in mark-question-completed; its
catch-block body is the constant error string with no timestamp. -/
def markQuestionCompletedHandler (h : Headers) (today : String) (now : Nat) (db : DB) :
    HttpResponse × DB :=
  match markCompletedCore (mqcDeviceId h) today now db with
  | (.ok a, db') => (⟨200, .completedOk a.has_attempted a.is_completed false⟩, db')
  | (.error _, db') => (⟨500, .errPlain "Failed to mark question as completed"⟩, db')

/-! ## Interleaving semantics

A world is the shared database plus the in-flight invocations; a
schedule is a list of invocation indices, each entry running one atomic
step of that invocation (completion handlers have a single step). -/

inductive Invocation where
  | goc (env : GocEnv) (ph : GocPhase)
  | mcq (h : Headers) (today : String) (now : Nat) (resp : Option HttpResponse)
  | mc (h : Headers) (today : String) (now : Nat) (resp : Option HttpResponse)
deriving DecidableEq

def stepInv : Invocation → DB → Invocation × DB
  | .goc env ph, db =>
    let p := gocStep env ph db
    (.goc env p.1, p.2)
  | .mcq h d n none, db =>
    let p := markQuestionCompletedHandler h d n db
    (.mcq h d n (some p.1), p.2)
  | .mcq h d n (some r), db => (.mcq h d n (some r), db)
  | .mc h d n none, db =>
    let p := markCompletedHandler h d n db
    (.mc h d n (some p.1), p.2)
  | .mc h d n (some r), db => (.mc h d n (some r), db)

structure World where
  db : DB
  invs : List Invocation
deriving DecidableEq

def stepWorld (w : World) (i : Nat) : World :=
  match w.invs[i]? with
  | none => w
  | some inv =>
    let p := stepInv inv w.db
    ⟨p.2, w.invs.set i p.1⟩

def runSched : World → List Nat → World
  | w, [] => w
  | w, i :: rest => runSched (stepWorld w i) rest

/-! ## Database well-formedness and claim-level predicates -/

/-- The UNIQUE constraint on `daily_questions.question_date`. -/
def questionDatesNodup (db : DB) : Prop :=
  (db.daily_questions.map (fun q => q.question_date)).Nodup

/-- The UNIQUE constraint on `user_question_attempts(device_id,
question_date)`. -/
def attemptKeysNodup (db : DB) : Prop :=
  (db.user_question_attempts.map (fun a => (a.device_id, a.question_date))).Nodup

def countQuestionsOn (db : DB) (d : String) : Nat :=
  (db.daily_questions.filter (fun q => q.question_date == d)).length

def countAttemptsOn (db : DB) (dev d : String) : Nat :=
  (db.user_question_attempts.filter
    (fun a => a.device_id == dev && a.question_date == d)).length

/-- A completed attempt row for `(dev, d)` exists. -/
def completedIn (db : DB) (dev d : String) : Prop :=
  ∃ a ∈ db.user_question_attempts,
    a.device_id = dev ∧ a.question_date = d ∧ a.is_completed = true

def emptyDB : DB := ⟨[], [], 0⟩

def trivA : RawTrivia := ⟨"Which planet is red?", "Mars", ["Venus", "Pluto"]⟩

def trivB : RawTrivia := ⟨"Largest ocean?", "Pacific", ["Atlantic"]⟩

def envA : GocEnv := ⟨"2025-03-01", "devA", some trivA, false⟩

def envB : GocEnv := ⟨"2025-03-01", "devB", some trivB, false⟩

/-! ## Predicates used by the theorems -/

/-- Whether a matcher fires at some position of the subject, i.e.
whether the corresponding `replace` can rewrite anything at all. -/
def existsSuffixMatch (m : Matcher) : List Char → Bool
  | [] => false
  | c :: cs => (m (c :: cs)).isSome || existsSuffixMatch m cs

/-- Whitespace of the subject consists of single interior spaces: every
whitespace character is a plain space not followed by further
whitespace. -/
def spaceNormal : List Char → Bool
  | [] => true
  | [c] => !isJsSpace c || c == ' '
  | c1 :: c2 :: rest =>
    (!isJsSpace c1 || (c1 == ' ' && !isJsSpace c2)) && spaceNormal (c2 :: rest)

/-- The subject neither starts nor ends with whitespace. -/
def edgeNotWs (s : List Char) : Bool :=
  (match s.head? with
   | none => true
   | some c => !isJsSpace c) &&
  (match s.getLast? with
   | none => true
   | some c => !isJsSpace c)

/-- A string is sanitize-normal when none of the pattern rewrites of
`sanitizeText` fires on it (no markup fragments, none of the handled
HTML entities, no `javascript:` or event-handler text) and its
whitespace is already normalized. -/
def sanitizeNormal (s : List Char) : Bool :=
  !existsSuffixMatch matchScriptBlock s &&
  !existsSuffixMatch matchTag s &&
  !existsSuffixMatch (matchLitCI (strChars "javascript:") []) s &&
  !existsSuffixMatch matchOnHandler s &&
  !existsSuffixMatch (matchLitCI (strChars "&lt;script") []) s &&
  !existsSuffixMatch (matchLitCI (strChars "&lt;/script") []) s &&
  !existsSuffixMatch (matchLit (strChars "&quot;") [dquote]) s &&
  !existsSuffixMatch (matchLit (strChars "&#039;") [apos]) s &&
  !existsSuffixMatch (matchLit (strChars "&amp;") (strChars "&")) s &&
  !existsSuffixMatch (matchLit (strChars "&lt;") (strChars "<")) s &&
  !existsSuffixMatch (matchLit (strChars "&gt;") (strChars ">")) s &&
  !existsSuffixMatch (matchLit (strChars "&nbsp;") (strChars " ")) s &&
  !existsSuffixMatch (matchLit (strChars "&hellip;") (strChars "...")) s &&
  !existsSuffixMatch (matchLit (strChars "&mdash;") (strChars "-")) s &&
  !existsSuffixMatch (matchLit (strChars "&ndash;") (strChars "-")) s &&
  !existsSuffixMatch (matchLit (strChars "&rsquo;") [apos]) s &&
  !existsSuffixMatch (matchLit (strChars "&lsquo;") [apos]) s &&
  !existsSuffixMatch (matchLit (strChars "&ldquo;") [dquote]) s &&
  !existsSuffixMatch (matchLit (strChars "&rdquo;") [dquote]) s &&
  edgeNotWs s && spaceNormal s

def storeKeys (s : List (String × RateLimitRecord)) : List String :=
  s.map (fun e => e.1)

/-- The question row a get-or-create invocation holds is a row of the
database for its date. -/
def qdOK (db : DB) (today : String) : Option QuestionRow → Prop
  | none => True
  | some q => q ∈ db.daily_questions ∧ q.question_date = today

/-- A 200 response's question fields agree with a persisted row for the
invocation's date. -/
def respOK (db : DB) (today : String) (resp : HttpResponse) : Prop :=
  ∀ id qt ca inc ha ic can, resp.body = .questionOk id qt ca inc ha ic can →
    ∃ r ∈ db.daily_questions, r.question_date = today ∧ r.id = id ∧
      r.question_text = qt ∧ r.correct_answer = ca ∧ r.incorrect_answers = inc

def phaseOK (db : DB) (env : GocEnv) : GocPhase → Prop
  | .start => True
  | .insertQ _ => True
  | .recoverQ => ∃ r ∈ db.daily_questions, r.question_date = env.today
  | .attemptSel qd => qdOK db env.today qd
  | .attemptIns q => qdOK db env.today (some q)
  | .finished resp => respOK db env.today resp

def invOK (db : DB) : Invocation → Prop
  | .goc env ph => phaseOK db env ph
  | _ => True

/-! ## Concrete scenarios -/

/-- Two same-device invocations racing on the attempt insert. -/
def envD1 : GocEnv := ⟨"2025-03-01", "dev1", some trivA, false⟩

def envD2 : GocEnv := ⟨"2025-03-01", "dev1", some trivB, false⟩

def dupDevWorld : World := ⟨emptyDB, [.goc envD1 .start, .goc envD2 .start]⟩

def dupDevSched : List Nat := [0, 1, 0, 1, 1, 0, 1, 0, 1]

/-- A question-race loser whose recovery re-query fails. -/
def envLoser : GocEnv := ⟨"2025-03-01", "devB", some trivB, true⟩

def raceWorld : World := ⟨emptyDB, [.goc envA .start, .goc envLoser .start]⟩

def raceSched : List Nat := [0, 1, 0, 1, 1, 1]

/-- The no-fault two-caller race of the daily-question provisioner. -/
def freshDayWorld : World := ⟨emptyDB, [.goc envA .start, .goc envB .start]⟩

def freshDaySched : List Nat := [0, 1, 0, 1, 0, 0, 1, 1, 1]

/-- Headers with no `x-device-id` but a forwarded-for address. -/
def hFwd : Headers := ⟨none, some "203.0.113.7"⟩

def dbWithQ : DB :=
  ⟨[⟨0, "2025-03-01", "Which planet is red?", "Mars", ["Venus"]⟩], [], 1⟩

/-- Database after a get-or-create request with headers `hFwd` ran to
completion on `dbWithQ`: it creates the attempt row for the device id
the get-or-create handler derives. -/
def dbAnonAttempt : DB :=
  (runSched ⟨dbWithQ, [.goc ⟨"2025-03-01", gocDeviceId hFwd, none, false⟩ .start]⟩
    [0, 0, 0]).db

/-- A database holding one completed attempt row for dev1. -/
def dbCompleted : DB := ⟨[], [⟨0, "dev1", "2025-03-01", 0, true, true, 0⟩], 1⟩

/-- A well-formed OpenTriviaDB response. -/
def dEx : JVal :=
  .obj [("response_code", .num 0),
    ("results", .arr [.obj [("question", .str "Q?"),
      ("correct_answer", .str "A"),
      ("incorrect_answers", .arr [.str "B", .str "C", .str "D"])]])]

def vEx : ValidatedQuestion := ⟨"Q?", "A", ["B", "C", "D"], none, none, none⟩

/-- The limiter state midway through a single-client scenario on the
default configuration: one record for the client, window anchored at
`t0`. -/
def rlMid (client : String) (t0 la lc k : Nat) : RateLimiter :=
  ⟨[(client, ⟨k, t0 + 60000, la⟩)], 60000, 10, 1000, 300000, lc⟩

/-- A limiter of capacity 4 at capacity, for the eviction scenario. -/
def rlFull : RateLimiter :=
  ⟨[("a", ⟨1, 60, 0⟩), ("b", ⟨1, 60, 1⟩), ("c", ⟨1, 60, 2⟩), ("d", ⟨1, 60, 3⟩)],
    60000, 10, 4, 300000, 0⟩

/-! # Theorems

First, generic lemmas about the replacement machinery. -/

lemma replaceGo_eq_self (m : Matcher) :
    ∀ (fuel : Nat) (s : List Char), existsSuffixMatch m s = false →
      replaceGo m fuel s = s := by
  intro fuel
  induction fuel with
  | zero => intro s _; cases s <;> rfl
  | succ n ih =>
    intro s h
    cases s with
    | nil => rfl
    | cons c cs =>
      simp only [existsSuffixMatch, Bool.or_eq_false_iff] at h
      obtain ⟨h1, h2⟩ := h
      cases hm : m (c :: cs) with
      | some v => rw [hm] at h1; simp at h1
      | none =>
        simp only [replaceGo, hm]
        exact congrArg (List.cons c) (ih cs h2)

lemma replaceAll_eq_self (m : Matcher) (s : List Char)
    (h : existsSuffixMatch m s = false) : replaceAll m s = s :=
  replaceGo_eq_self m s.length s h

lemma spaceNormal_tail (c : Char) (cs : List Char)
    (h : spaceNormal (c :: cs) = true) : spaceNormal cs = true := by
  cases cs with
  | nil => rfl
  | cons c2 rest =>
    simp only [spaceNormal, Bool.and_eq_true] at h
    exact h.2

lemma spaceNormal_head_ws (c : Char) (cs : List Char)
    (h : spaceNormal (c :: cs) = true) (hws : isJsSpace c = true) :
    c = ' ' ∧ (cs = [] ∨ ∃ c2 rest, cs = c2 :: rest ∧ isJsSpace c2 = false) := by
  cases cs with
  | nil =>
    simp only [spaceNormal, hws, Bool.not_true, Bool.false_or, beq_iff_eq] at h
    exact ⟨h, Or.inl rfl⟩
  | cons c2 rest =>
    simp only [spaceNormal, Bool.and_eq_true, hws, Bool.not_true, Bool.false_or,
      Bool.and_eq_true, beq_iff_eq, Bool.not_eq_true'] at h
    exact ⟨h.1.1, Or.inr ⟨c2, rest, rfl, h.1.2⟩⟩

lemma collapse_eq_self_of_spaceNormal :
    ∀ (fuel : Nat) (s : List Char), spaceNormal s = true →
      replaceGo matchWsRun fuel s = s := by
  intro fuel
  induction fuel with
  | zero => intro s hsp; clear hsp; cases s <;> rfl
  | succ n ih =>
    intro s h
    cases s with
    | nil => rfl
    | cons c cs =>
      cases hws : isJsSpace c with
      | false =>
        have hm : matchWsRun (c :: cs) = none := by simp [matchWsRun, hws]
        simp only [replaceGo, hm]
        exact congrArg (List.cons c) (ih cs (spaceNormal_tail c cs h))
      | true =>
        obtain ⟨hc, hcs⟩ := spaceNormal_head_ws c cs h hws
        have htw : cs.takeWhile isJsSpace = [] := by
          rcases hcs with rfl | ⟨c2, rest, rfl, h2⟩
          · rfl
          · simp [List.takeWhile_cons, h2]
        have hm : matchWsRun (c :: cs) = some ([' '], 0) := by
          simp [matchWsRun, hws, htw]
        simp only [replaceGo, hm, List.drop_zero, List.singleton_append]
        subst hc
        exact congrArg (List.cons ' ') (ih cs (spaceNormal_tail _ cs h))

lemma dropWhile_eq_self_of_head (s : List Char)
    (h : ∀ c, s.head? = some c → isJsSpace c = false) :
    s.dropWhile isJsSpace = s := by
  cases s with
  | nil => rfl
  | cons c cs => simp [List.dropWhile_cons, h c rfl]

lemma jsTrim_eq_self (s : List Char) (h : edgeNotWs s = true) : jsTrim s = s := by
  simp only [edgeNotWs, Bool.and_eq_true] at h
  obtain ⟨h1, h2⟩ := h
  have hh : ∀ c, s.head? = some c → isJsSpace c = false := by
    intro c hc
    rw [hc] at h1
    simpa using h1
  have hl : ∀ c, s.getLast? = some c → isJsSpace c = false := by
    intro c hc
    rw [hc] at h2
    simpa using h2
  unfold jsTrim
  rw [dropWhile_eq_self_of_head s hh]
  rw [dropWhile_eq_self_of_head s.reverse
    (fun c hc => hl c (by rwa [List.head?_reverse] at hc))]
  exact List.reverse_reverse s

lemma sanitizeTextL_eq_self (s : List Char) (h : sanitizeNormal s = true) :
    sanitizeTextL s = s := by
  simp only [sanitizeNormal, Bool.and_eq_true, Bool.not_eq_true', and_assoc] at h
  obtain ⟨h1, h2, h3, h4, h5, h6, h7, h8, h9, h10, h11, h12, h13, h14, h15, h16,
    h17, h18, h19, hedge, hsp⟩ := h
  simp only [sanitizeTextL]
  rw [replaceAll_eq_self _ _ h1, replaceAll_eq_self _ _ h2,
    replaceAll_eq_self _ _ h3, replaceAll_eq_self _ _ h4,
    replaceAll_eq_self _ _ h5, replaceAll_eq_self _ _ h6,
    replaceAll_eq_self _ _ h7, replaceAll_eq_self _ _ h8,
    replaceAll_eq_self _ _ h9, replaceAll_eq_self _ _ h10,
    replaceAll_eq_self _ _ h11, replaceAll_eq_self _ _ h12,
    replaceAll_eq_self _ _ h13, replaceAll_eq_self _ _ h14,
    replaceAll_eq_self _ _ h15, replaceAll_eq_self _ _ h16,
    replaceAll_eq_self _ _ h17, replaceAll_eq_self _ _ h19,
    replaceAll_eq_self _ _ h18,
    jsTrim_eq_self s hedge]
  exact collapse_eq_self_of_spaceNormal s.length s hsp

/-- C6 counterexample: `sanitizeText` is not idempotent on every input.
On `&amp;amp;lt;` one pass decodes only the leading `&amp;` (the global
scan resumes after the replacement), yielding `&amp;lt;`, while a second
pass decodes further to `<`. -/
theorem sanitizeText_not_idempotent :
    sanitizeText (sanitizeText "&amp;amp;lt;") ≠ sanitizeText "&amp;amp;lt;" := by
  decide

/-- C6 amended: `sanitizeText` is idempotent on inputs whose sanitized
form is sanitize-normal — contains no occurrence of any of the rewritten
patterns (markup fragments, `javascript:`, event-handler text, the
handled HTML entities) and has already-normalized whitespace.  The fully
general round-trip equation fails (see the counterexample). -/
theorem sanitizeText_idem_of_normal (t : String)
    (h : sanitizeNormal (sanitizeText t).data = true) :
    sanitizeText (sanitizeText t) = sanitizeText t := by
  show (⟨sanitizeTextL (sanitizeText t).data⟩ : String) = sanitizeText t
  rw [sanitizeTextL_eq_self _ h]

theorem sanitizeText_idem_of_normal_witness :
    sanitizeNormal (sanitizeText "Daily&nbsp;trivia!").data = true ∧
    sanitizeText (sanitizeText "Daily&nbsp;trivia!") = sanitizeText "Daily&nbsp;trivia!" :=
  ⟨by decide, sanitizeText_idem_of_normal "Daily&nbsp;trivia!" (by decide)⟩

lemma sanitizeAnswers_sound :
    ∀ (xs : List JVal) (l : List String), sanitizeAnswers xs = .ok l →
      l.length = xs.length ∧
      ∀ a ∈ l, a ≠ "" ∧ a.length ≤ MAX_ANSWER_LENGTH ∧ ∃ raw, a = sanitizeText raw := by
  intro xs
  induction xs with
  | nil =>
    intro l h
    simp only [sanitizeAnswers] at h
    cases h
    exact ⟨rfl, by intro a ha; cases ha⟩
  | cons x rest ih =>
    intro l h
    cases x with
    | str s =>
      simp only [sanitizeAnswers] at h
      split at h
      · cases h
      split at h
      · cases h
      rename_i hz hlong
      cases hrec : sanitizeAnswers rest with
      | error e => rw [hrec] at h; cases h
      | ok l0 =>
        rw [hrec] at h
        cases h
        obtain ⟨hlen, hall⟩ := ih l0 hrec
        constructor
        · simp [hlen]
        · intro a ha
          rcases List.mem_cons.mp ha with rfl | ha0
          · refine ⟨?_, Nat.le_of_not_lt hlong, s, rfl⟩
            intro he
            rw [he] at hz
            exact hz rfl
          · exact hall a ha0
    | null => simp [sanitizeAnswers] at h
    | bool b => simp [sanitizeAnswers] at h
    | num n => simp [sanitizeAnswers] at h
    | arr a => simp [sanitizeAnswers] at h
    | obj o => simp [sanitizeAnswers] at h

lemma validateIncorrectSection_sound (q0 : JVal) (sq sca : String)
    (v : ValidatedQuestion) (h : validateIncorrectSection q0 sq sca = .ok v) :
    v.question = sq ∧ v.correct_answer = sca ∧
    1 ≤ v.incorrect_answers.length ∧
    v.incorrect_answers.length ≤ MAX_ANSWERS_COUNT ∧
    ∀ a ∈ v.incorrect_answers,
      a ≠ "" ∧ a.length ≤ MAX_ANSWER_LENGTH ∧ ∃ raw, a = sanitizeText raw := by
  unfold validateIncorrectSection at h
  split at h
  · rename_i ians hians
    split at h
    · cases h
    rename_i hrange
    split at h
    · cases h
    rename_i sians hsan
    cases h
    obtain ⟨hlen, hall⟩ := sanitizeAnswers_sound ians sians hsan
    rw [not_or] at hrange
    obtain ⟨hne, hgt⟩ := hrange
    have hle : ians.length ≤ MAX_ANSWERS_COUNT := Nat.le_of_not_lt hgt
    have hne' : ians.length ≠ 0 := hne
    refine ⟨rfl, rfl, ?_, ?_, hall⟩
    · show 1 ≤ sians.length
      omega
    · show sians.length ≤ MAX_ANSWERS_COUNT
      omega
  · cases h

lemma validateCorrectSection_sound (q0 : JVal) (sq : String)
    (v : ValidatedQuestion) (h : validateCorrectSection q0 sq = .ok v) :
    v.question = sq ∧
    v.correct_answer ≠ "" ∧ v.correct_answer.length ≤ MAX_ANSWER_LENGTH ∧
    (∃ rawc, v.correct_answer = sanitizeText rawc) ∧
    1 ≤ v.incorrect_answers.length ∧
    v.incorrect_answers.length ≤ MAX_ANSWERS_COUNT ∧
    ∀ a ∈ v.incorrect_answers,
      a ≠ "" ∧ a.length ≤ MAX_ANSWER_LENGTH ∧ ∃ raw, a = sanitizeText raw := by
  unfold validateCorrectSection at h
  split at h
  · rename_i cas hcas
    split at h
    · cases h
    dsimp only at h
    split at h
    · cases h
    split at h
    · cases h
    rename_i hempty hzero hlong
    obtain ⟨hq, hca, hrest⟩ := validateIncorrectSection_sound q0 sq (sanitizeText cas) v h
    refine ⟨hq, ?_, ?_, ⟨cas, hca⟩, hrest⟩
    · rw [hca]
      intro he
      rw [he] at hzero
      exact hzero rfl
    · rw [hca]
      exact Nat.le_of_not_lt hlong
  · cases h

lemma validateQuestionSection_sound (q0 : JVal) (v : ValidatedQuestion)
    (h : validateQuestionSection q0 = .ok v) :
    v.question ≠ "" ∧ v.question.length ≤ MAX_QUESTION_LENGTH ∧
    (∃ rawq, v.question = sanitizeText rawq) ∧
    v.correct_answer ≠ "" ∧ v.correct_answer.length ≤ MAX_ANSWER_LENGTH ∧
    (∃ rawc, v.correct_answer = sanitizeText rawc) ∧
    1 ≤ v.incorrect_answers.length ∧
    v.incorrect_answers.length ≤ MAX_ANSWERS_COUNT ∧
    ∀ a ∈ v.incorrect_answers,
      a ≠ "" ∧ a.length ≤ MAX_ANSWER_LENGTH ∧ ∃ raw, a = sanitizeText raw := by
  unfold validateQuestionSection at h
  split at h
  · cases h
  split at h
  · rename_i qs hqs
    split at h
    · cases h
    dsimp only at h
    split at h
    · cases h
    split at h
    · cases h
    rename_i hempty hzero hlong
    obtain ⟨hq, hrest⟩ := validateCorrectSection_sound q0 (sanitizeText qs) v h
    refine ⟨?_, ?_, ⟨qs, hq⟩, hrest⟩
    · rw [hq]
      intro he
      rw [he] at hzero
      exact hzero rfl
    · rw [hq]
      exact Nat.le_of_not_lt hlong
  · cases h

/-- C7: `validateQuestionData` succeeds only on a response carrying a
numeric `response_code` and a non-empty `results` list, and a successful
result consists of a non-empty sanitized question of at most 500
characters, a non-empty sanitized correct answer of at most 200
characters, and between 1 and 10 incorrect answers, each a non-empty
sanitized string of at most 200 characters; every structural violation
takes an error branch instead (the contrapositive of this soundness
statement). -/
theorem validateQuestionData_ok_sound (d : JVal) (v : ValidatedQuestion)
    (h : validateQuestionData d = .ok v) :
    (d.getField "response_code").isNumberType = true ∧
    (∃ q0 rest, d.getField "results" = .arr (q0 :: rest)) ∧
    v.question ≠ "" ∧ v.question.length ≤ MAX_QUESTION_LENGTH ∧
    (∃ rawq, v.question = sanitizeText rawq) ∧
    v.correct_answer ≠ "" ∧ v.correct_answer.length ≤ MAX_ANSWER_LENGTH ∧
    (∃ rawc, v.correct_answer = sanitizeText rawc) ∧
    1 ≤ v.incorrect_answers.length ∧
    v.incorrect_answers.length ≤ MAX_ANSWERS_COUNT ∧
    ∀ a ∈ v.incorrect_answers,
      a ≠ "" ∧ a.length ≤ MAX_ANSWER_LENGTH ∧ ∃ raw, a = sanitizeText raw := by
  unfold validateQuestionData at h
  split at h
  · cases h
  split at h
  · cases h
  rename_i hobj hnum
  split at h
  · rename_i q0 rest hres
    exact ⟨not_not.mp hnum, ⟨q0, rest, hres⟩, validateQuestionSection_sound q0 v h⟩
  · cases h

theorem validateQuestionData_ok_sound_witness :
    (dEx.getField "response_code").isNumberType = true ∧
    (∃ q0 rest, dEx.getField "results" = .arr (q0 :: rest)) ∧
    vEx.question ≠ "" ∧ vEx.question.length ≤ MAX_QUESTION_LENGTH ∧
    (∃ rawq, vEx.question = sanitizeText rawq) ∧
    vEx.correct_answer ≠ "" ∧ vEx.correct_answer.length ≤ MAX_ANSWER_LENGTH ∧
    (∃ rawc, vEx.correct_answer = sanitizeText rawc) ∧
    1 ≤ vEx.incorrect_answers.length ∧
    vEx.incorrect_answers.length ≤ MAX_ANSWERS_COUNT ∧
    ∀ a ∈ vEx.incorrect_answers,
      a ≠ "" ∧ a.length ≤ MAX_ANSWER_LENGTH ∧ ∃ raw, a = sanitizeText raw :=
  validateQuestionData_ok_sound dEx vEx rfl

lemma storeGet_single (client : String) (r : RateLimitRecord) :
    storeGet [(client, r)] client = some r := by
  simp [storeGet, List.find?]

lemma cleanup_rlMid (client : String) (t0 la lc k now : Nat)
    (hw : now ≤ t0 + 120000) :
    ∃ lc', (rlMid client t0 la lc k).performCleanupIfNeeded now =
      rlMid client t0 la lc' k := by
  have main : (rlMid client t0 la lc k).performCleanupIfNeeded now =
        rlMid client t0 la lc k ∨
      (rlMid client t0 la lc k).performCleanupIfNeeded now =
        rlMid client t0 la now k := by
    unfold RateLimiter.performCleanupIfNeeded
    dsimp only [rlMid]
    split
    · left; rfl
    · right
      have hfe : ¬ (now > t0 + 60000 + 60000) := by omega
      simp [RateLimiter.cleanup, List.filter, hfe, rlMid]
  rcases main with hm | hm
  exacts [⟨lc, hm⟩, ⟨now, hm⟩]

lemma cleanup_mkDefault (c0 now : Nat) :
    ∃ lc', (RateLimiter.mkDefault c0).performCleanupIfNeeded now =
      ⟨[], 60000, 10, 1000, 300000, lc'⟩ := by
  have main : (RateLimiter.mkDefault c0).performCleanupIfNeeded now =
        ⟨[], 60000, 10, 1000, 300000, c0⟩ ∨
      (RateLimiter.mkDefault c0).performCleanupIfNeeded now =
        ⟨[], 60000, 10, 1000, 300000, now⟩ := by
    unfold RateLimiter.performCleanupIfNeeded
    dsimp only [RateLimiter.mkDefault, RateLimiter.new]
    split
    · left; rfl
    · right; simp [RateLimiter.cleanup, List.filter]
  rcases main with hm | hm
  exacts [⟨c0, hm⟩, ⟨now, hm⟩]

lemma cleanup_rlMid_cases (client : String) (t0 la lc k now : Nat) :
    ∃ lc', (rlMid client t0 la lc k).performCleanupIfNeeded now =
        rlMid client t0 la lc' k ∨
      (rlMid client t0 la lc k).performCleanupIfNeeded now =
        ⟨[], 60000, 10, 1000, 300000, lc'⟩ := by
  unfold RateLimiter.performCleanupIfNeeded
  dsimp only [rlMid]
  split
  · exact ⟨lc, Or.inl rfl⟩
  · by_cases hexp : now > t0 + 60000 + 60000
    · refine ⟨now, Or.inr ?_⟩
      simp [RateLimiter.cleanup, List.filter, hexp, storeDelete, List.eraseP]
    · refine ⟨now, Or.inl ?_⟩
      simp [RateLimiter.cleanup, List.filter, hexp, rlMid]

lemma isRateLimited_fresh (c0 now : Nat) (client : String) :
    ∃ lc', (RateLimiter.mkDefault c0).isRateLimited client now =
      (false, rlMid client now now lc' 1) := by
  obtain ⟨lc', hcl⟩ := cleanup_mkDefault c0 now
  refine ⟨lc', ?_⟩
  unfold RateLimiter.isRateLimited
  rw [hcl]
  simp [storeGet, List.find?, storeSet, rlMid]

lemma isRateLimited_active (client : String) (t0 la lc k now : Nat)
    (hk : k < 10) (hw : now ≤ t0 + 60000) :
    ∃ lc', (rlMid client t0 la lc k).isRateLimited client now =
      (false, rlMid client t0 now lc' (k + 1)) := by
  obtain ⟨lc', hcl⟩ := cleanup_rlMid client t0 la lc k now (by omega)
  refine ⟨lc', ?_⟩
  unfold RateLimiter.isRateLimited
  rw [hcl]
  have hexp : ¬ (now > t0 + 60000) := by omega
  simp only [rlMid, storeGet, List.find?, beq_self_eq_true]
  simp [hexp, hk, storeSet, rlMid]

lemma isRateLimited_limited (client : String) (t0 la lc k now : Nat)
    (hk : ¬ k < 10) (hw : now ≤ t0 + 60000) :
    ∃ lc', (rlMid client t0 la lc k).isRateLimited client now =
      (true, rlMid client t0 now lc' k) := by
  obtain ⟨lc', hcl⟩ := cleanup_rlMid client t0 la lc k now (by omega)
  refine ⟨lc', ?_⟩
  unfold RateLimiter.isRateLimited
  rw [hcl]
  have hexp : ¬ (now > t0 + 60000) := by omega
  simp only [rlMid, storeGet, List.find?, beq_self_eq_true]
  simp [hexp, hk, storeSet, rlMid]

lemma isRateLimited_reset (client : String) (t0 la lc k now : Nat)
    (hr : now > t0 + 60000) :
    ∃ lc', (rlMid client t0 la lc k).isRateLimited client now =
      (false, rlMid client now now lc' 1) := by
  obtain ⟨lc', hcl⟩ := cleanup_rlMid_cases client t0 la lc k now
  refine ⟨lc', ?_⟩
  unfold RateLimiter.isRateLimited
  rcases hcl with hm | hm
  · rw [hm]
    simp only [rlMid, storeGet, List.find?, beq_self_eq_true]
    simp [hr, storeSet, rlMid]
  · rw [hm]
    simp [storeGet, List.find?, storeSet, rlMid]

lemma run_append (xs ys : List (String × Nat)) :
    ∀ rl : RateLimiter, rl.run (xs ++ ys) =
      ((rl.run xs).1 ++ ((rl.run xs).2.run ys).1, ((rl.run xs).2.run ys).2) := by
  induction xs with
  | nil => intro rl; simp [RateLimiter.run]
  | cons p rest ih =>
    intro rl
    obtain ⟨c, t⟩ := p
    simp only [List.cons_append, RateLimiter.run, List.append_eq, ih]

lemma run_active (client : String) (t0 : Nat) :
    ∀ (ts : List Nat) (k la lc : Nat), k + ts.length ≤ 10 →
      (∀ t ∈ ts, t ≤ t0 + 60000) →
      ∃ la' lc', (rlMid client t0 la lc k).run (ts.map (fun t => (client, t))) =
        (List.replicate ts.length false, rlMid client t0 la' lc' (k + ts.length)) := by
  intro ts
  induction ts with
  | nil =>
    intro k la lc _ _
    exact ⟨la, lc, rfl⟩
  | cons t rest ih =>
    intro k la lc hle hwin
    have hk : k < 10 := by
      have := hle
      simp only [List.length_cons] at this
      omega
    obtain ⟨lc1, hstep⟩ := isRateLimited_active client t0 la lc k t hk
      (hwin t (List.mem_cons_self t rest))
    obtain ⟨la', lc', hrun⟩ := ih (k + 1) t lc1
      (by simp only [List.length_cons] at hle; omega)
      (fun u hu => hwin u (List.mem_cons_of_mem t hu))
    have heq : k + 1 + rest.length = k + (rest.length + 1) := by omega
    rw [heq] at hrun
    refine ⟨la', lc', ?_⟩
    simp only [List.map_cons, RateLimiter.run, hstep, hrun, List.length_cons,
      List.replicate_succ]

/-- C4: on the default configuration (60 s window, 10 requests) and a
fresh limiter, a single client's first 10 calls inside one window are
not limited (the first call creates the record with count 1, the rest
increment it), the 11th call in the window is limited, the stored count
stays at the maximum of 10, and a call after the window's reset time has
elapsed is served again from a reset record with count 1. -/
theorem rateLimiter_default_window (c0 t0 : Nat) (client : String)
    (ws : List Nat) (tLast t' : Nat)
    (hlen : ws.length = 9)
    (hws : ∀ t ∈ ws, t ≤ t0 + 60000)
    (hlast : tLast ≤ t0 + 60000)
    (hreset : t' > t0 + 60000) :
    ((RateLimiter.mkDefault c0).run
        ((t0 :: (ws ++ [tLast])).map (fun t => (client, t)))).1 =
      List.replicate 10 false ++ [true] ∧
    storeGet ((RateLimiter.mkDefault c0).run
        ((t0 :: (ws ++ [tLast])).map (fun t => (client, t)))).2.store client =
      some ⟨10, t0 + 60000, tLast⟩ ∧
    (((RateLimiter.mkDefault c0).run
        ((t0 :: (ws ++ [tLast])).map (fun t => (client, t)))).2.isRateLimited
        client t').1 = false ∧
    storeGet (((RateLimiter.mkDefault c0).run
        ((t0 :: (ws ++ [tLast])).map (fun t => (client, t)))).2.isRateLimited
        client t').2.store client = some ⟨1, t' + 60000, t'⟩ := by
  obtain ⟨lc0, h0⟩ := isRateLimited_fresh c0 t0 client
  obtain ⟨la1, lc1, h1⟩ := run_active client t0 ws 1 t0 lc0 (by omega) hws
  obtain ⟨lc2, h2⟩ := isRateLimited_limited client t0 la1 lc1 10 tLast
    (by omega) hlast
  have hrun : (RateLimiter.mkDefault c0).run
      ((t0 :: (ws ++ [tLast])).map (fun t => (client, t))) =
      (false :: (List.replicate 9 false ++ [true]), rlMid client t0 tLast lc2 10) := by
    simp only [List.map_cons, RateLimiter.run, h0, List.map_append]
    rw [run_append]
    rw [hlen] at h1
    simp only [h1, List.map_cons, List.map_nil, RateLimiter.run, h2]
  obtain ⟨lc3, h3⟩ := isRateLimited_reset client t0 tLast lc2 10 t' hreset
  rw [hrun]
  refine ⟨?_, ?_, ?_, ?_⟩
  · simp [List.replicate_succ]
  · exact storeGet_single client _
  · rw [h3]
  · rw [h3]
    exact storeGet_single client _

theorem rateLimiter_default_window_witness :
    ((RateLimiter.mkDefault 0).run
        (((0 : Nat) :: ([1, 2, 3, 4, 5, 6, 7, 8, 9] ++ [10])).map
          (fun t => ("ip", t)))).1 = List.replicate 10 false ++ [true] ∧
    storeGet ((RateLimiter.mkDefault 0).run
        (((0 : Nat) :: ([1, 2, 3, 4, 5, 6, 7, 8, 9] ++ [10])).map
          (fun t => ("ip", t)))).2.store "ip" = some ⟨10, 0 + 60000, 10⟩ ∧
    (((RateLimiter.mkDefault 0).run
        (((0 : Nat) :: ([1, 2, 3, 4, 5, 6, 7, 8, 9] ++ [10])).map
          (fun t => ("ip", t)))).2.isRateLimited "ip" 60001).1 = false ∧
    storeGet (((RateLimiter.mkDefault 0).run
        (((0 : Nat) :: ([1, 2, 3, 4, 5, 6, 7, 8, 9] ++ [10])).map
          (fun t => ("ip", t)))).2.isRateLimited "ip" 60001).2.store "ip" =
      some ⟨1, 60001 + 60000, 60001⟩ :=
  rateLimiter_default_window 0 0 "ip" [1, 2, 3, 4, 5, 6, 7, 8, 9] 10 60001
    rfl (by decide) (by decide) (by decide)

lemma storeGet_eq_none_iff (s : List (String × RateLimitRecord)) (k : String) :
    storeGet s k = none ↔ k ∉ storeKeys s := by
  induction s with
  | nil => simp [storeGet, List.find?, storeKeys]
  | cons e es ih =>
    by_cases he : e.1 = k
    · simp [storeGet, List.find?, he, storeKeys]
    · have hne : (e.1 == k) = false := beq_eq_false_iff_ne.mpr he
      have hstep : storeGet (e :: es) k = storeGet es k := by
        simp [storeGet, List.find?, hne]
      rw [hstep, ih]
      simp only [storeKeys, List.map_cons, List.mem_cons, not_or]
      constructor
      · intro h1
        exact ⟨fun hk => he hk.symm, h1⟩
      · intro h1
        exact h1.2

lemma storeDelete_sublist (s : List (String × RateLimitRecord)) (k : String) :
    (storeDelete s k).Sublist s :=
  List.eraseP_sublist s

lemma foldl_storeDelete_sublist (ks : List String) :
    ∀ s, (ks.foldl storeDelete s).Sublist s := by
  induction ks with
  | nil => intro s; exact List.Sublist.refl s
  | cons k ks ih =>
    intro s
    exact (ih (storeDelete s k)).trans (storeDelete_sublist s k)

lemma length_storeDelete_of_mem (s : List (String × RateLimitRecord)) (k : String)
    (hk : k ∈ storeKeys s) : (storeDelete s k).length + 1 = s.length := by
  induction s with
  | nil => cases hk
  | cons e es ih =>
    by_cases he : e.1 = k
    · have hb : (e.1 == k) = true := beq_iff_eq.mpr he
      simp [storeDelete, List.eraseP_cons, hb]
    · have hb : (e.1 == k) = false := beq_eq_false_iff_ne.mpr he
      have hk' : k ∈ storeKeys es := by
        simp only [storeKeys, List.map_cons, List.mem_cons] at hk
        rcases hk with hk0 | hk0
        · exact absurd hk0.symm he
        · exact hk0
      have hihs := ih hk'
      simp only [storeDelete, List.eraseP_cons, hb, cond_false, List.length_cons]
      simp only [storeDelete] at hihs
      omega

lemma mem_storeKeys_storeDelete (s : List (String × RateLimitRecord))
    (k k' : String) (hne : k' ≠ k) (hk : k' ∈ storeKeys s) :
    k' ∈ storeKeys (storeDelete s k) := by
  induction s with
  | nil => cases hk
  | cons e es ih =>
    simp only [storeKeys, List.map_cons, List.mem_cons] at hk
    by_cases he : e.1 = k
    · have hb : (e.1 == k) = true := beq_iff_eq.mpr he
      simp only [storeDelete, List.eraseP_cons, hb, cond_true]
      rcases hk with hk0 | hk0
      · exact absurd (hk0.trans he) hne
      · exact hk0
    · have hb : (e.1 == k) = false := beq_eq_false_iff_ne.mpr he
      simp only [storeDelete, List.eraseP_cons, hb, cond_false, storeKeys,
        List.map_cons, List.mem_cons]
      rcases hk with hk0 | hk0
      · exact Or.inl hk0
      · exact Or.inr (ih hk0)

lemma not_mem_storeKeys_storeDelete (s : List (String × RateLimitRecord))
    (k : String) (hnd : (storeKeys s).Nodup) :
    k ∉ storeKeys (storeDelete s k) := by
  induction s with
  | nil => simp [storeDelete, storeKeys, List.eraseP]
  | cons e es ih =>
    simp only [storeKeys, List.map_cons, List.nodup_cons] at hnd
    by_cases he : e.1 = k
    · have hb : (e.1 == k) = true := beq_iff_eq.mpr he
      simp only [storeDelete, List.eraseP_cons, hb, cond_true]
      rw [← he]
      exact hnd.1
    · have hb : (e.1 == k) = false := beq_eq_false_iff_ne.mpr he
      simp only [storeDelete, List.eraseP_cons, hb, cond_false, storeKeys,
        List.map_cons, List.mem_cons, not_or]
      exact ⟨fun hk => he hk.symm, ih hnd.2⟩

lemma storeKeys_sublist_of_sublist {s t : List (String × RateLimitRecord)}
    (h : s.Sublist t) : (storeKeys s).Sublist (storeKeys t) := by
  have hm := h.map (fun e : String × RateLimitRecord => e.1)
  simpa [storeKeys] using hm

lemma length_foldl_storeDelete (ks : List String) :
    ∀ s, ks.Nodup → (∀ k ∈ ks, k ∈ storeKeys s) →
      (ks.foldl storeDelete s).length + ks.length = s.length := by
  induction ks with
  | nil => intro s _ _; simp
  | cons k ks ih =>
    intro s hnd hmem
    simp only [List.nodup_cons] at hnd
    have hmem' : ∀ k' ∈ ks, k' ∈ storeKeys (storeDelete s k) := by
      intro k' hk'
      exact mem_storeKeys_storeDelete s k k'
        (fun he => hnd.1 (he ▸ hk')) (hmem k' (List.mem_cons_of_mem k hk'))
    have h1 := ih (storeDelete s k) hnd.2 hmem'
    have h2 := length_storeDelete_of_mem s k (hmem k (List.mem_cons_self k ks))
    simp only [List.foldl_cons, List.length_cons]
    omega

lemma not_mem_foldl_storeDelete (ks : List String) :
    ∀ (s : List (String × RateLimitRecord)) (k : String), k ∈ ks →
      (storeKeys s).Nodup → k ∉ storeKeys (ks.foldl storeDelete s) := by
  induction ks with
  | nil => intro s k hk; cases hk
  | cons k0 ks ih =>
    intro s k hk hnd
    have hndd : (storeKeys (storeDelete s k0)).Nodup :=
      (storeKeys_sublist_of_sublist (storeDelete_sublist s k0)).nodup hnd
    simp only [List.foldl_cons]
    rcases List.mem_cons.mp hk with rfl | hk0
    · have h0 : k ∉ storeKeys (storeDelete s k) :=
        not_mem_storeKeys_storeDelete s k hnd
      intro hmem
      exact h0 ((storeKeys_sublist_of_sublist
        (foldl_storeDelete_sublist ks (storeDelete s k))).mem hmem)
    · exact ih (storeDelete s k0) k hk0 hndd

lemma storeKeys_storeSet_of_none (s : List (String × RateLimitRecord))
    (k : String) (v : RateLimitRecord) (h : storeGet s k = none) :
    storeKeys (storeSet s k v) = storeKeys s ++ [k] := by
  induction s with
  | nil => rfl
  | cons e es ih =>
    have hk : k ∉ storeKeys (e :: es) := (storeGet_eq_none_iff _ k).mp h
    have he : ¬ e.1 = k := by
      intro hcontra
      exact hk (by simp [storeKeys, hcontra])
    have h' : storeGet es k = none := by
      apply (storeGet_eq_none_iff es k).mpr
      intro hmem
      apply hk
      simp only [storeKeys, List.map_cons, List.mem_cons]
      exact Or.inr hmem
    simp only [storeSet, he, if_false, storeKeys, List.map_cons, List.cons_append]
    exact congrArg (List.cons e.1) (ih h')

lemma storeKeys_storeSet_of_mem (s : List (String × RateLimitRecord))
    (k : String) (v : RateLimitRecord) (h : k ∈ storeKeys s) :
    storeKeys (storeSet s k v) = storeKeys s := by
  induction s with
  | nil => cases h
  | cons e es ih =>
    by_cases he : e.1 = k
    · simp [storeSet, he, storeKeys]
    · have hk' : k ∈ storeKeys es := by
        simp only [storeKeys, List.map_cons, List.mem_cons] at h
        rcases h with h0 | h0
        · exact absurd h0.symm he
        · exact h0
      simp only [storeSet, he, if_false, storeKeys, List.map_cons]
      exact congrArg (List.cons e.1) (ih hk')

lemma evictOldest_spec (rl : RateLimiter) (hnd : (storeKeys rl.store).Nodup) :
    rl.evictOldestEntries.store.length + rl.store.length / 4 = rl.store.length ∧
    (storeKeys rl.evictOldestEntries.store).Nodup ∧
    (∀ k, k ∈ ((rl.store.insertionSort
        (fun a b => a.2.lastAccess ≤ b.2.lastAccess)).take
          (rl.store.length / 4)).map (fun e => e.1) →
      k ∉ storeKeys rl.evictOldestEntries.store) := by
  have hlen : (rl.store.insertionSort
      (fun a b => a.2.lastAccess ≤ b.2.lastAccess)).length = rl.store.length :=
    List.length_insertionSort _ rl.store
  have hperm : (rl.store.insertionSort
      (fun a b => a.2.lastAccess ≤ b.2.lastAccess)).Perm rl.store :=
    List.perm_insertionSort _ rl.store
  have hkeysperm : ((rl.store.insertionSort
      (fun a b => a.2.lastAccess ≤ b.2.lastAccess)).map (fun e => e.1)).Perm
      (storeKeys rl.store) := hperm.map (fun e => e.1)
  have hndsorted := hkeysperm.nodup_iff.mpr hnd
  have htake : ((rl.store.insertionSort
      (fun a b => a.2.lastAccess ≤ b.2.lastAccess)).take
        (rl.store.length / 4)).map (fun e => e.1) =
      ((rl.store.insertionSort
        (fun a b => a.2.lastAccess ≤ b.2.lastAccess)).map (fun e => e.1)).take
        (rl.store.length / 4) := List.map_take _ _ _
  have hndtaken : (((rl.store.insertionSort
      (fun a b => a.2.lastAccess ≤ b.2.lastAccess)).take
        (rl.store.length / 4)).map (fun e => e.1)).Nodup := by
    rw [htake]
    exact (List.take_sublist _ _).nodup hndsorted
  have hmemtaken : ∀ k ∈ ((rl.store.insertionSort
      (fun a b => a.2.lastAccess ≤ b.2.lastAccess)).take
        (rl.store.length / 4)).map (fun e => e.1), k ∈ storeKeys rl.store := by
    intro k hk
    rw [htake] at hk
    exact hkeysperm.mem_iff.mp ((List.take_sublist _ _).mem hk)
  have htlen : (((rl.store.insertionSort
      (fun a b => a.2.lastAccess ≤ b.2.lastAccess)).take
        (rl.store.length / 4)).map (fun e => e.1)).length =
      rl.store.length / 4 := by
    rw [List.length_map, List.length_take, hlen]
    exact Nat.min_eq_left (Nat.div_le_self _ _)
  have hstore : rl.evictOldestEntries.store =
      (((rl.store.insertionSort
        (fun a b => a.2.lastAccess ≤ b.2.lastAccess)).take
          (rl.store.length / 4)).map (fun e => e.1)).foldl storeDelete rl.store := by
    simp only [RateLimiter.evictOldestEntries, hlen]
  refine ⟨?_, ?_, ?_⟩
  · rw [hstore]
    have := length_foldl_storeDelete _ rl.store hndtaken hmemtaken
    rw [htlen] at this
    exact this
  · rw [hstore]
    exact (storeKeys_sublist_of_sublist (foldl_storeDelete_sublist _ _)).nodup hnd
  · intro k hk
    rw [hstore]
    exact not_mem_foldl_storeDelete _ rl.store k hk hnd

lemma performCleanup_spec (rl : RateLimiter) (now : Nat) :
    (rl.performCleanupIfNeeded now).store.Sublist rl.store ∧
    (rl.performCleanupIfNeeded now).maxStoreSize = rl.maxStoreSize ∧
    (rl.performCleanupIfNeeded now).windowMs = rl.windowMs := by
  unfold RateLimiter.performCleanupIfNeeded
  split
  · exact ⟨List.Sublist.refl _, rfl, rfl⟩
  · exact ⟨foldl_storeDelete_sublist _ _, rfl, rfl⟩

lemma length_storeSet_of_none (s : List (String × RateLimitRecord))
    (k : String) (v : RateLimitRecord) (h : storeGet s k = none) :
    (storeSet s k v).length = s.length + 1 := by
  have hkey := congrArg List.length (storeKeys_storeSet_of_none s k v h)
  simpa [storeKeys] using hkey

lemma length_storeSet_of_mem (s : List (String × RateLimitRecord))
    (k : String) (v : RateLimitRecord) (h : k ∈ storeKeys s) :
    (storeSet s k v).length = s.length := by
  have hkey := congrArg List.length (storeKeys_storeSet_of_mem s k v h)
  simpa [storeKeys] using hkey

lemma isRateLimited_preserves (rl : RateLimiter) (client : String) (now : Nat)
    (hnd : (storeKeys rl.store).Nodup)
    (hle : rl.store.length ≤ rl.maxStoreSize)
    (hcap : 4 ≤ rl.maxStoreSize) :
    (storeKeys (rl.isRateLimited client now).2.store).Nodup ∧
    (rl.isRateLimited client now).2.store.length ≤ rl.maxStoreSize ∧
    (rl.isRateLimited client now).2.maxStoreSize = rl.maxStoreSize := by
  obtain ⟨hsub, hmax, hwin⟩ := performCleanup_spec rl now
  unfold RateLimiter.isRateLimited
  dsimp only
  set rlc := rl.performCleanupIfNeeded now with hrlc
  have hndc : (storeKeys rlc.store).Nodup :=
    (storeKeys_sublist_of_sublist hsub).nodup hnd
  have hlec : rlc.store.length ≤ rl.maxStoreSize := le_trans hsub.length_le hle
  cases hget : storeGet rlc.store client with
  | none =>
    have hnm : client ∉ storeKeys rlc.store := (storeGet_eq_none_iff _ _).mp hget
    by_cases hfull : rlc.store.length ≥ rlc.maxStoreSize
    · obtain ⟨helen, hend, hevict⟩ := evictOldest_spec rlc hndc
      have hnm2 : client ∉ storeKeys rlc.evictOldestEntries.store := by
        intro hmem
        exact hnm ((storeKeys_sublist_of_sublist
          (by
            have : rlc.evictOldestEntries.store =
                (((rlc.store.insertionSort
                  (fun a b => a.2.lastAccess ≤ b.2.lastAccess)).take
                    (rlc.store.length / 4)).map (fun e => e.1)).foldl
                  storeDelete rlc.store := by
              simp only [RateLimiter.evictOldestEntries,
                List.length_insertionSort]
            rw [this]
            exact foldl_storeDelete_sublist _ _)).mem hmem)
      have hget2 : storeGet rlc.evictOldestEntries.store client = none :=
        (storeGet_eq_none_iff _ _).mpr hnm2
      simp only [hget, hfull, if_true]
      refine ⟨?_, ?_, hmax⟩
      · rw [storeKeys_storeSet_of_none _ _ _ hget2]
        simp [List.nodup_append, hend, hnm2]
      · rw [length_storeSet_of_none _ _ _ hget2]
        have hdiv : 1 ≤ rlc.store.length / 4 := by
          refine Nat.one_le_div_iff (by norm_num) |>.mpr ?_
          rw [hmax] at hfull
          omega
        rw [hmax] at hfull
        omega
    · simp only [hget, hfull, if_false]
      refine ⟨?_, ?_, hmax⟩
      · rw [storeKeys_storeSet_of_none _ _ _ hget]
        simp [List.nodup_append, hndc, hnm]
      · rw [length_storeSet_of_none _ _ _ hget]
        rw [hmax] at hfull
        omega
  | some r =>
    have hmem : client ∈ storeKeys rlc.store := by
      by_contra hmm
      rw [(storeGet_eq_none_iff _ _).mpr hmm] at hget
      cases hget
    have hknd : ∀ v, (storeKeys (storeSet rlc.store client v)).Nodup := by
      intro v
      rw [storeKeys_storeSet_of_mem _ _ _ hmem]
      exact hndc
    have hklen : ∀ v, (storeSet rlc.store client v).length ≤ rl.maxStoreSize := by
      intro v
      rw [length_storeSet_of_mem _ _ _ hmem]
      exact hlec
    simp only [hget]
    split
    · exact ⟨hknd _, hklen _, hmax⟩
    · split
      · exact ⟨hknd _, hklen _, hmax⟩
      · exact ⟨hknd _, hklen _, hmax⟩

lemma storeGet_storeSet_self (s : List (String × RateLimitRecord))
    (k : String) (v : RateLimitRecord) :
    storeGet (storeSet s k v) k = some v := by
  induction s with
  | nil => simp [storeSet, storeGet, List.find?]
  | cons e es ih =>
    by_cases he : e.1 = k
    · simp [storeSet, he, storeGet, List.find?]
    · have hb : (e.1 == k) = false := beq_eq_false_iff_ne.mpr he
      simp only [storeSet, he, if_false]
      have hstep : storeGet (e :: storeSet es k v) k = storeGet (storeSet es k v) k := by
        simp [storeGet, List.find?, hb]
      rw [hstep]
      exact ih

lemma run_preserves (calls : List (String × Nat)) :
    ∀ rl : RateLimiter, (storeKeys rl.store).Nodup →
      rl.store.length ≤ rl.maxStoreSize → 4 ≤ rl.maxStoreSize →
      (rl.run calls).2.store.length ≤ rl.maxStoreSize ∧
      (storeKeys (rl.run calls).2.store).Nodup ∧
      (rl.run calls).2.maxStoreSize = rl.maxStoreSize := by
  induction calls with
  | nil =>
    intro rl h1 h2 _
    exact ⟨h2, h1, rfl⟩
  | cons p rest ih =>
    intro rl h1 h2 h3
    obtain ⟨c, t⟩ := p
    obtain ⟨s1, s2, s3⟩ := isRateLimited_preserves rl c t h1 h2 h3
    obtain ⟨t1, t2, t3⟩ := ih (rl.isRateLimited c t).2 s1
      (by rw [s3]; exact s2) (by rw [s3]; exact h3)
    simp only [RateLimiter.run]
    exact ⟨by rw [← s3]; exact t1, t2, t3.trans s3⟩

/-- C5 counterexample: the store bound fails for small configured
capacities.  At capacity 1, eviction removes `Math.floor(1 * 0.25) = 0`
entries, so a second unique client grows the store to 2 entries. -/
theorem rateLimiter_capacity_counterexample :
    (RateLimiter.new 60000 10 1 300000 0).maxStoreSize = 1 ∧
    ((RateLimiter.new 60000 10 1 300000 0).run
      [("a", 0), ("b", 1)]).2.store.length = 2 := by
  decide

/-- C5 amended: for every call sequence and every configured capacity of
at least 4 — the default 1000 included — the backing store never holds
more entries than the capacity; and when the store is at capacity, the
cleanup is not due, and an unseen client arrives, the `floor(0.25 n)`
entries oldest by last-access time are evicted before the new record is
inserted (for capacities below 4 the flooring evicts nothing and the
bound fails, see the counterexample). -/
theorem rateLimiter_capacity_bound_and_eviction :
    (∀ (w maxR cap interval c0 : Nat) (calls : List (String × Nat)), 4 ≤ cap →
      ((RateLimiter.new w maxR cap interval c0).run calls).2.store.length ≤ cap) ∧
    (∀ (rl : RateLimiter) (client : String) (now : Nat),
      (storeKeys rl.store).Nodup →
      ((now : Int) - (rl.lastCleanup : Int) < (rl.cleanupIntervalMs : Int)) →
      storeGet rl.store client = none →
      rl.store.length ≥ rl.maxStoreSize →
      (rl.isRateLimited client now).2.store.length + rl.store.length / 4 =
        rl.store.length + 1 ∧
      (∀ k ∈ ((rl.store.insertionSort
          (fun a b => a.2.lastAccess ≤ b.2.lastAccess)).take
            (rl.store.length / 4)).map (fun e => e.1),
        storeGet (rl.isRateLimited client now).2.store k = none) ∧
      storeGet (rl.isRateLimited client now).2.store client =
        some ⟨1, now + rl.windowMs, now⟩) := by
  constructor
  · intro w maxR cap interval c0 calls hcap
    exact (run_preserves calls (RateLimiter.new w maxR cap interval c0)
      (by simp [RateLimiter.new, storeKeys])
      (by simp [RateLimiter.new]) hcap).1
  · intro rl client now hnd hskip hget hfull
    have hcl : rl.performCleanupIfNeeded now = rl := by
      unfold RateLimiter.performCleanupIfNeeded
      rw [if_pos hskip]
    have hnm : client ∉ storeKeys rl.store := (storeGet_eq_none_iff _ _).mp hget
    obtain ⟨helen, hend, hevict⟩ := evictOldest_spec rl hnd
    have hsubev : rl.evictOldestEntries.store.Sublist rl.store := by
      have heq : rl.evictOldestEntries.store =
          (((rl.store.insertionSort
            (fun a b => a.2.lastAccess ≤ b.2.lastAccess)).take
              (rl.store.length / 4)).map (fun e => e.1)).foldl
            storeDelete rl.store := by
        simp only [RateLimiter.evictOldestEntries, List.length_insertionSort]
      rw [heq]
      exact foldl_storeDelete_sublist _ _
    have hnm2 : client ∉ storeKeys rl.evictOldestEntries.store := by
      intro hmem
      exact hnm ((storeKeys_sublist_of_sublist hsubev).mem hmem)
    have hget2 : storeGet rl.evictOldestEntries.store client = none :=
      (storeGet_eq_none_iff _ _).mpr hnm2
    have hres : (rl.isRateLimited client now).2.store =
        storeSet rl.evictOldestEntries.store client ⟨1, now + rl.windowMs, now⟩ := by
      unfold RateLimiter.isRateLimited
      dsimp only
      rw [hcl, hget]
      simp only [hfull, if_true]
    refine ⟨?_, ?_, ?_⟩
    · rw [hres, length_storeSet_of_none _ _ _ hget2]
      omega
    · intro k hk
      have hknotin : k ∉ storeKeys rl.evictOldestEntries.store := hevict k hk
      have hkmem : k ∈ storeKeys rl.store := by
        rw [List.map_take] at hk
        have hk' := (List.take_sublist _ _).mem hk
        exact ((List.perm_insertionSort
          (fun a b => a.2.lastAccess ≤ b.2.lastAccess) rl.store).map
            (fun e => e.1)).mem_iff.mp hk'
      have hkne : k ≠ client := fun hkc => hnm (hkc ▸ hkmem)
      rw [hres]
      apply (storeGet_eq_none_iff _ _).mpr
      rw [storeKeys_storeSet_of_none _ _ _ hget2]
      simp only [List.mem_append, List.mem_singleton, not_or]
      exact ⟨hknotin, hkne⟩
    · rw [hres]
      exact storeGet_storeSet_self _ _ _

theorem rateLimiter_capacity_bound_and_eviction_witness :
    ((RateLimiter.new 60000 10 4 300000 0).run
      [("a", 0), ("b", 1), ("c", 2), ("d", 3), ("e", 4), ("f", 5)]).2.store.length ≤ 4 ∧
    (rlFull.isRateLimited "e" 5).2.store.length + rlFull.store.length / 4 =
      rlFull.store.length + 1 ∧
    (∀ k ∈ ((rlFull.store.insertionSort
        (fun a b => a.2.lastAccess ≤ b.2.lastAccess)).take
          (rlFull.store.length / 4)).map (fun e => e.1),
      storeGet (rlFull.isRateLimited "e" 5).2.store k = none) ∧
    storeGet (rlFull.isRateLimited "e" 5).2.store "e" =
      some ⟨1, 5 + rlFull.windowMs, 5⟩ :=
  ⟨rateLimiter_capacity_bound_and_eviction.1 60000 10 4 300000 0
      [("a", 0), ("b", 1), ("c", 2), ("d", 3), ("e", 4), ("f", 5)] (by decide),
    rateLimiter_capacity_bound_and_eviction.2 rlFull "e" 5 (by decide) (by decide)
      (by decide) (by decide)⟩

lemma selectQuestion_mem (db : DB) (d : String) (q : QuestionRow)
    (h : selectQuestion db d = some q) :
    q ∈ db.daily_questions ∧ q.question_date = d := by
  refine ⟨List.mem_of_find?_eq_some h, ?_⟩
  have := List.find?_some h
  exact beq_iff_eq.mp this

lemma find_date_of_mem_nodup :
    ∀ (l : List QuestionRow) (d : String) (q : QuestionRow),
      (l.map (fun r => r.question_date)).Nodup → q ∈ l → q.question_date = d →
      l.find? (fun r => r.question_date == d) = some q := by
  intro l
  induction l with
  | nil => intro d q _ hq; cases hq
  | cons r l ih =>
    intro d q hnd hq hd
    simp only [List.map_cons, List.nodup_cons] at hnd
    rcases List.mem_cons.mp hq with rfl | hq0
    · simp [List.find?, beq_iff_eq.mpr hd]
    · have hrd : (r.question_date == d) = false := by
        apply beq_eq_false_iff_ne.mpr
        intro hb
        apply hnd.1
        rw [hb, ← hd]
        exact List.mem_map_of_mem (fun x => x.question_date) hq0
      simp only [List.find?, hrd]
      exact ih d q hnd.2 hq0 hd

lemma selectQuestion_of_mem_nodup (db : DB) (d : String) (q : QuestionRow)
    (hnd : questionDatesNodup db) (hq : q ∈ db.daily_questions)
    (hd : q.question_date = d) : selectQuestion db d = some q :=
  find_date_of_mem_nodup db.daily_questions d q hnd hq hd

lemma filter_date_le_one :
    ∀ (l : List QuestionRow) (d : String),
      (l.map (fun q => q.question_date)).Nodup →
      (l.filter (fun q => q.question_date == d)).length ≤ 1 := by
  intro l
  induction l with
  | nil => intro d _; simp
  | cons q l ih =>
    intro d hnd
    simp only [List.map_cons, List.nodup_cons] at hnd
    by_cases hq : q.question_date = d
    · have hnone : ∀ x ∈ l, ¬ (x.question_date == d) = true := by
        intro x hx hb
        apply hnd.1
        rw [hq, ← beq_iff_eq.mp hb]
        exact List.mem_map_of_mem (fun r => r.question_date) hx
      have hfil : l.filter (fun r => r.question_date == d) = [] :=
        List.filter_eq_nil_iff.mpr hnone
      simp [List.filter_cons, beq_iff_eq.mpr hq, hfil]
    · have hb : (q.question_date == d) = false := beq_eq_false_iff_ne.mpr hq
      simp only [List.filter_cons, hb, Bool.false_eq_true, if_false]
      exact ih d hnd.2

lemma countQuestionsOn_le_one (db : DB) (d : String)
    (h : questionDatesNodup db) : countQuestionsOn db d ≤ 1 :=
  filter_date_le_one db.daily_questions d h

lemma gocStep_questions (env : GocEnv) (ph : GocPhase) (db : DB) :
    ∃ t, (gocStep env ph db).2.daily_questions = db.daily_questions ++ t := by
  cases ph <;>
    simp only [gocStep] <;>
    (repeat' split) <;>
    first
      | exact ⟨_, rfl⟩
      | exact ⟨[], by simp [insertAttemptRow]⟩

lemma markCompletedCore_questions (dev d : String) (n : Nat) (db : DB) :
    (markCompletedCore dev d n db).2.daily_questions = db.daily_questions := by
  unfold markCompletedCore
  dsimp only
  split <;> rfl

lemma markQuestionCompletedHandler_questions (h : Headers) (d : String)
    (n : Nat) (db : DB) :
    (markQuestionCompletedHandler h d n db).2.daily_questions =
      db.daily_questions := by
  unfold markQuestionCompletedHandler
  have hq := markCompletedCore_questions (mqcDeviceId h) d n db
  split
  · rename_i a db' heq
    rw [heq] at hq
    exact hq
  · rename_i m db' heq
    rw [heq] at hq
    exact hq

lemma markCompletedHandler_questions (h : Headers) (d : String)
    (n : Nat) (db : DB) :
    (markCompletedHandler h d n db).2.daily_questions = db.daily_questions := by
  unfold markCompletedHandler
  have hq := markCompletedCore_questions (mcDeviceId h) d n db
  split
  · rename_i a db' heq
    rw [heq] at hq
    exact hq
  · rename_i m db' heq
    rw [heq] at hq
    exact hq

lemma stepInv_questions (inv : Invocation) (db : DB) :
    ∃ t, (stepInv inv db).2.daily_questions = db.daily_questions ++ t := by
  cases inv with
  | goc env ph => exact gocStep_questions env ph db
  | mcq h d n r =>
    cases r with
    | none =>
      exact ⟨[], by
        simp only [stepInv, markQuestionCompletedHandler_questions, List.append_nil]⟩
    | some resp => exact ⟨[], by simp [stepInv]⟩
  | mc h d n r =>
    cases r with
    | none =>
      exact ⟨[], by
        simp only [stepInv, markCompletedHandler_questions, List.append_nil]⟩
    | some resp => exact ⟨[], by simp [stepInv]⟩

lemma gocStep_qnodup (env : GocEnv) (ph : GocPhase) (db : DB)
    (h : questionDatesNodup db) : questionDatesNodup (gocStep env ph db).2 := by
  cases ph <;> simp only [gocStep] <;> (repeat' split) <;> try exact h
  rename_i hnc
  have hnotin : env.today ∉ db.daily_questions.map (fun q => q.question_date) := by
    intro hmem
    apply hnc
    obtain ⟨q, hq, hqd⟩ := List.mem_map.mp hmem
    unfold questionConflict
    rw [List.any_eq_true]
    exact ⟨q, hq, beq_iff_eq.mpr hqd⟩
  unfold questionDatesNodup insertQuestionRow at *
  simp only [List.map_append, List.map_cons, List.map_nil]
  simp [List.nodup_append, h, hnotin]

lemma markCompletedCore_attempts (dev d : String) (n : Nat) (db : DB) :
    (markCompletedCore dev d n db).2.user_question_attempts =
      db.user_question_attempts.map (fun a =>
        if a.device_id == dev && a.question_date == d then
          { a with has_attempted := true, is_completed := true, updated_at := n }
        else a) := by
  unfold markCompletedCore
  dsimp only
  split <;> rfl

lemma markCompletedCore_attemptKeys (dev d : String) (n : Nat) (db : DB) :
    (markCompletedCore dev d n db).2.user_question_attempts.map
        (fun a => (a.device_id, a.question_date)) =
      db.user_question_attempts.map (fun a => (a.device_id, a.question_date)) := by
  rw [markCompletedCore_attempts, List.map_map]
  apply List.map_congr_left
  intro a _
  by_cases hc : (a.device_id == dev && a.question_date == d) = true
  · simp [Function.comp, hc]
  · simp only [Bool.not_eq_true] at hc
    simp [Function.comp, hc]

lemma markQuestionCompletedHandler_attempts (h : Headers) (d : String)
    (n : Nat) (db : DB) :
    (markQuestionCompletedHandler h d n db).2.user_question_attempts =
      (markCompletedCore (mqcDeviceId h) d n db).2.user_question_attempts := by
  unfold markQuestionCompletedHandler
  split
  · rename_i a db' heq
    rw [heq]
  · rename_i m db' heq
    rw [heq]

lemma markCompletedHandler_attempts (h : Headers) (d : String)
    (n : Nat) (db : DB) :
    (markCompletedHandler h d n db).2.user_question_attempts =
      (markCompletedCore (mcDeviceId h) d n db).2.user_question_attempts := by
  unfold markCompletedHandler
  split
  · rename_i a db' heq
    rw [heq]
  · rename_i m db' heq
    rw [heq]

lemma stepInv_qnodup (inv : Invocation) (db : DB)
    (h : questionDatesNodup db) : questionDatesNodup (stepInv inv db).2 := by
  cases inv with
  | goc env ph => exact gocStep_qnodup env ph db h
  | mcq hh d n r =>
    cases r with
    | none =>
      show questionDatesNodup (markQuestionCompletedHandler hh d n db).2
      unfold questionDatesNodup
      rw [markQuestionCompletedHandler_questions]
      exact h
    | some resp => exact h
  | mc hh d n r =>
    cases r with
    | none =>
      show questionDatesNodup (markCompletedHandler hh d n db).2
      unfold questionDatesNodup
      rw [markCompletedHandler_questions]
      exact h
    | some resp => exact h

lemma gocStep_anodup (env : GocEnv) (ph : GocPhase) (db : DB)
    (h : attemptKeysNodup db) : attemptKeysNodup (gocStep env ph db).2 := by
  cases ph <;> simp only [gocStep] <;> (repeat' split) <;> try exact h
  rename_i q hnc
  have hnotin : (env.deviceId, env.today) ∉
      db.user_question_attempts.map (fun a => (a.device_id, a.question_date)) := by
    intro hmem
    apply hnc
    obtain ⟨a, ha, hak⟩ := List.mem_map.mp hmem
    unfold attemptConflict
    rw [List.any_eq_true]
    refine ⟨a, ha, ?_⟩
    have h1 : a.device_id = env.deviceId := congrArg Prod.fst hak
    have h2 : a.question_date = env.today := congrArg Prod.snd hak
    simp [h1, h2]
  unfold attemptKeysNodup insertAttemptRow at *
  simp only [List.map_append, List.map_cons, List.map_nil]
  simp [List.nodup_append, h, hnotin]

lemma stepInv_anodup (inv : Invocation) (db : DB)
    (h : attemptKeysNodup db) : attemptKeysNodup (stepInv inv db).2 := by
  cases inv with
  | goc env ph => exact gocStep_anodup env ph db h
  | mcq hh d n r =>
    cases r with
    | none =>
      show attemptKeysNodup (markQuestionCompletedHandler hh d n db).2
      unfold attemptKeysNodup
      rw [markQuestionCompletedHandler_attempts, markCompletedCore_attemptKeys]
      exact h
    | some resp => exact h
  | mc hh d n r =>
    cases r with
    | none =>
      show attemptKeysNodup (markCompletedHandler hh d n db).2
      unfold attemptKeysNodup
      rw [markCompletedHandler_attempts, markCompletedCore_attemptKeys]
      exact h
    | some resp => exact h

lemma gocStep_attempts (env : GocEnv) (ph : GocPhase) (db : DB) :
    ∃ t, (gocStep env ph db).2.user_question_attempts =
      db.user_question_attempts ++ t := by
  cases ph <;>
    simp only [gocStep] <;>
    (repeat' split) <;>
    first
      | exact ⟨_, rfl⟩
      | exact ⟨[], by simp [insertQuestionRow]⟩

lemma stepInv_completedIn (inv : Invocation) (db : DB) (dev d : String)
    (h : completedIn db dev d) : completedIn (stepInv inv db).2 dev d := by
  obtain ⟨a, ha, h1, h2, h3⟩ := h
  cases inv with
  | goc env ph =>
    obtain ⟨t, ht⟩ := gocStep_attempts env ph db
    refine ⟨a, ?_, h1, h2, h3⟩
    show a ∈ (gocStep env ph db).2.user_question_attempts
    rw [ht]
    exact List.mem_append_left t ha
  | mcq hh dd n r =>
    cases r with
    | none =>
      refine ⟨if a.device_id == mqcDeviceId hh && a.question_date == dd then
          { a with has_attempted := true, is_completed := true, updated_at := n }
        else a, ?_, ?_⟩
      · show _ ∈ (markQuestionCompletedHandler hh dd n db).2.user_question_attempts
        rw [markQuestionCompletedHandler_attempts, markCompletedCore_attempts]
        exact List.mem_map_of_mem _ ha
      · by_cases hc : (a.device_id == mqcDeviceId hh && a.question_date == dd) = true
        · simp only [hc, if_true]
          exact ⟨h1, h2, by trivial⟩
        · simp only [Bool.not_eq_true] at hc
          simp only [hc, Bool.false_eq_true, if_false]
          exact ⟨h1, h2, h3⟩
    | some resp => exact ⟨a, ha, h1, h2, h3⟩
  | mc hh dd n r =>
    cases r with
    | none =>
      refine ⟨if a.device_id == mcDeviceId hh && a.question_date == dd then
          { a with has_attempted := true, is_completed := true, updated_at := n }
        else a, ?_, ?_⟩
      · show _ ∈ (markCompletedHandler hh dd n db).2.user_question_attempts
        rw [markCompletedHandler_attempts, markCompletedCore_attempts]
        exact List.mem_map_of_mem _ ha
      · by_cases hc : (a.device_id == mcDeviceId hh && a.question_date == dd) = true
        · simp only [hc, if_true]
          exact ⟨h1, h2, by trivial⟩
        · simp only [Bool.not_eq_true] at hc
          simp only [hc, Bool.false_eq_true, if_false]
          exact ⟨h1, h2, h3⟩
    | some resp => exact ⟨a, ha, h1, h2, h3⟩

lemma stepWorld_db_pred (P : DB → Prop)
    (hP : ∀ inv db, P db → P (stepInv inv db).2) :
    ∀ (w : World) (i : Nat), P w.db → P (stepWorld w i).db := by
  intro w i h
  unfold stepWorld
  cases hg : w.invs[i]? with
  | none => exact h
  | some inv => exact hP inv w.db h

lemma runSched_db_pred (P : DB → Prop)
    (hP : ∀ inv db, P db → P (stepInv inv db).2) :
    ∀ (sched : List Nat) (w : World), P w.db → P (runSched w sched).db := by
  intro sched
  induction sched with
  | nil => intro w h; exact h
  | cons i rest ih =>
    intro w h
    exact ih (stepWorld w i) (stepWorld_db_pred P hP w i h)

lemma mem_of_index (l : List Invocation) (i : Nat) (a : Invocation)
    (h : l[i]? = some a) : a ∈ l := by
  obtain ⟨hlt, he⟩ := List.getElem?_eq_some.mp h
  exact he ▸ List.getElem_mem hlt

lemma invOK_mono (db db' : DB) (t : List QuestionRow)
    (hdq : db'.daily_questions = db.daily_questions ++ t)
    (inv : Invocation) (h : invOK db inv) : invOK db' inv := by
  cases inv with
  | goc env ph =>
    cases ph with
    | start => trivial
    | insertQ _ => trivial
    | recoverQ =>
      obtain ⟨r, hr, hd⟩ := h
      refine ⟨r, ?_, hd⟩
      rw [hdq]
      exact List.mem_append_left t hr
    | attemptSel qd =>
      cases qd with
      | none => trivial
      | some q =>
        obtain ⟨hq, hd⟩ := h
        refine ⟨?_, hd⟩
        rw [hdq]
        exact List.mem_append_left t hq
    | attemptIns q =>
      obtain ⟨hq, hd⟩ := h
      refine ⟨?_, hd⟩
      rw [hdq]
      exact List.mem_append_left t hq
    | finished resp =>
      intro id qt ca inc ha ic can hb
      obtain ⟨r, hr, hprops⟩ := h id qt ca inc ha ic can hb
      refine ⟨r, ?_, hprops⟩
      rw [hdq]
      exact List.mem_append_left t hr
  | mcq hh d n r => trivial
  | mc hh d n r => trivial

lemma gocStep_phaseOK (env : GocEnv) (ph : GocPhase) (db : DB)
    (hph : phaseOK db env ph) :
    phaseOK (gocStep env ph db).2 env (gocStep env ph db).1 := by
  cases ph with
  | start =>
    simp only [gocStep]
    cases hsel : selectQuestion db env.today with
    | some q =>
      obtain ⟨hm, hd⟩ := selectQuestion_mem db env.today q hsel
      exact ⟨hm, hd⟩
    | none =>
      cases htr : env.trivia with
      | none =>
        intro id qt ca inc ha ic can hb
        cases hb
      | some t => trivial
  | insertQ t =>
    simp only [gocStep]
    by_cases hc : questionConflict db env.today = true
    · rw [if_pos hc]
      obtain ⟨q, hq, hb⟩ := List.any_eq_true.mp hc
      exact ⟨q, hq, beq_iff_eq.mp hb⟩
    · rw [if_neg hc]
      exact ⟨List.mem_append_right _ (List.mem_singleton_self _), rfl⟩
  | recoverQ =>
    simp only [gocStep]
    by_cases hf : env.recoveryFails = true
    · rw [if_pos hf]
      trivial
    · rw [if_neg hf]
      cases hsel : selectQuestion db env.today with
      | none => trivial
      | some q => exact selectQuestion_mem db env.today q hsel
  | attemptSel qd =>
    simp only [gocStep]
    cases hatt : selectAttempt db env.deviceId env.today with
    | some a =>
      cases qd with
      | some q =>
        intro id qt ca inc ha ic can hb
        cases hb
        exact ⟨q, hph.1, hph.2, rfl, rfl, rfl, rfl⟩
      | none =>
        intro id qt ca inc ha ic can hb
        cases hb
    | none =>
      cases qd with
      | some q => exact hph
      | none =>
        intro id qt ca inc ha ic can hb
        cases hb
  | attemptIns q =>
    simp only [gocStep]
    by_cases hc : attemptConflict db env.deviceId env.today = true
    · rw [if_pos hc]
      intro id qt ca inc ha ic can hb
      cases hb
    · rw [if_neg hc]
      intro id qt ca inc ha ic can hb
      cases hb
      exact ⟨q, hph.1, hph.2, rfl, rfl, rfl, rfl⟩
  | finished resp => exact hph

lemma stepInv_invOK (inv : Invocation) (db : DB) (h : invOK db inv) :
    invOK (stepInv inv db).2 (stepInv inv db).1 := by
  cases inv with
  | goc env ph => exact gocStep_phaseOK env ph db h
  | mcq hh d n r => cases r <;> trivial
  | mc hh d n r => cases r <;> trivial

lemma stepWorld_invOK (w : World) (i : Nat)
    (hinv : ∀ inv ∈ w.invs, invOK w.db inv) :
    ∀ inv ∈ (stepWorld w i).invs, invOK (stepWorld w i).db inv := by
  unfold stepWorld
  cases hg : w.invs[i]? with
  | none => exact hinv
  | some inv0 =>
    intro inv hmem
    dsimp only at hmem ⊢
    obtain ⟨t, ht⟩ := stepInv_questions inv0 w.db
    rcases List.mem_or_eq_of_mem_set hmem with hold | rfl
    · exact invOK_mono w.db _ t ht inv (hinv inv hold)
    · exact stepInv_invOK inv0 w.db (hinv inv0 (mem_of_index w.invs i inv0 hg))

lemma runSched_invOK (sched : List Nat) :
    ∀ w : World, (∀ inv ∈ w.invs, invOK w.db inv) →
      ∀ inv ∈ (runSched w sched).invs, invOK (runSched w sched).db inv := by
  induction sched with
  | nil => intro w h; exact h
  | cons i rest ih =>
    intro w h
    exact ih (stepWorld w i) (stepWorld_invOK w i h)

/-- C1: under any interleaving of invocations on a database satisfying
the `question_date` UNIQUE constraint, at most one `daily_questions` row
exists per date afterward; a caller whose insert failed with the 23505
uniqueness conflict re-queries by the date key and obtains the winner's
(the unique persisted) record; and every caller that finished with a
question response carries exactly the `question_text` and
`correct_answer` of the unique persisted row for its date — so all such
callers agree. -/
theorem daily_question_unique_and_consistent (w0 : World) (sched : List Nat)
    (d : String) (hnd : questionDatesNodup w0.db)
    (hinv : ∀ inv ∈ w0.invs, invOK w0.db inv) :
    countQuestionsOn (runSched w0 sched).db d ≤ 1 ∧
    (∀ (env : GocEnv) (resp : HttpResponse),
      Invocation.goc env (.finished resp) ∈ (runSched w0 sched).invs →
      env.today = d →
      ∀ id qt ca inc ha ic can, resp.body = .questionOk id qt ca inc ha ic can →
        ∃ r, selectQuestion (runSched w0 sched).db d = some r ∧
          qt = r.question_text ∧ ca = r.correct_answer) ∧
    (∀ (env : GocEnv) (db1 : DB), env.recoveryFails = false →
      questionDatesNodup db1 →
      (∃ r ∈ db1.daily_questions, r.question_date = env.today) →
      ∃ r, gocStep env .recoverQ db1 = (.attemptSel (some r), db1) ∧
        selectQuestion db1 env.today = some r ∧ r ∈ db1.daily_questions ∧
        r.question_date = env.today) := by
  have hndF : questionDatesNodup (runSched w0 sched).db :=
    runSched_db_pred questionDatesNodup stepInv_qnodup sched w0 hnd
  refine ⟨countQuestionsOn_le_one _ d hndF, ?_, ?_⟩
  · intro env resp hmem htoday id qt ca inc ha ic can hb
    have hOK := runSched_invOK sched w0 hinv _ hmem
    obtain ⟨r, hr, hrd, hid, hqt, hca, hinc⟩ := hOK id qt ca inc ha ic can hb
    refine ⟨r, ?_, hqt.symm, hca.symm⟩
    exact selectQuestion_of_mem_nodup _ d r hndF hr (htoday ▸ hrd)
  · intro env db1 hf hnd1 hex
    obtain ⟨r, hr, hrd⟩ := hex
    have hsel : selectQuestion db1 env.today = some r :=
      selectQuestion_of_mem_nodup db1 env.today r hnd1 hr hrd
    refine ⟨r, ?_, hsel, hr, hrd⟩
    simp only [gocStep]
    rw [if_neg (by rw [hf]; exact Bool.false_ne_true), hsel]

theorem daily_question_unique_and_consistent_witness :
    countQuestionsOn (runSched freshDayWorld freshDaySched).db "2025-03-01" ≤ 1 ∧
    (∀ (env : GocEnv) (resp : HttpResponse),
      Invocation.goc env (.finished resp) ∈ (runSched freshDayWorld freshDaySched).invs →
      env.today = "2025-03-01" →
      ∀ id qt ca inc ha ic can, resp.body = .questionOk id qt ca inc ha ic can →
        ∃ r, selectQuestion (runSched freshDayWorld freshDaySched).db "2025-03-01" =
            some r ∧ qt = r.question_text ∧ ca = r.correct_answer) ∧
    (∀ (env : GocEnv) (db1 : DB), env.recoveryFails = false →
      questionDatesNodup db1 →
      (∃ r ∈ db1.daily_questions, r.question_date = env.today) →
      ∃ r, gocStep env .recoverQ db1 = (.attemptSel (some r), db1) ∧
        selectQuestion db1 env.today = some r ∧ r ∈ db1.daily_questions ∧
        r.question_date = env.today) :=
  daily_question_unique_and_consistent freshDayWorld freshDaySched "2025-03-01"
    (by unfold questionDatesNodup; decide)
    (by
      intro inv hmem
      rcases List.mem_cons.mp hmem with rfl | hmem
      · trivial
      rcases List.mem_cons.mp hmem with rfl | hmem
      · trivial
      · cases hmem)

lemma filter_key_le_one :
    ∀ (l : List AttemptRow) (dev d : String),
      (l.map (fun a => (a.device_id, a.question_date))).Nodup →
      (l.filter (fun a => a.device_id == dev && a.question_date == d)).length ≤ 1 := by
  intro l
  induction l with
  | nil => intro dev d _; simp
  | cons a l ih =>
    intro dev d hnd
    simp only [List.map_cons, List.nodup_cons] at hnd
    by_cases ha : (a.device_id == dev && a.question_date == d) = true
    · have hkey : a.device_id = dev ∧ a.question_date = d := by
        rw [Bool.and_eq_true, beq_iff_eq, beq_iff_eq] at ha
        exact ha
      have hnone : ∀ x ∈ l,
          ¬ (x.device_id == dev && x.question_date == d) = true := by
        intro x hx hb
        rw [Bool.and_eq_true, beq_iff_eq, beq_iff_eq] at hb
        apply hnd.1
        have : (x.device_id, x.question_date) = (a.device_id, a.question_date) := by
          rw [hb.1, hb.2, hkey.1, hkey.2]
        rw [← this]
        exact List.mem_map_of_mem (fun r => (r.device_id, r.question_date)) hx
      have hfil : l.filter (fun x => x.device_id == dev && x.question_date == d) = [] :=
        List.filter_eq_nil_iff.mpr hnone
      simp [List.filter_cons, ha, hfil]
    · simp only [Bool.not_eq_true] at ha
      simp only [List.filter_cons, ha, Bool.false_eq_true, if_false]
      exact ih dev d hnd.2

lemma countAttemptsOn_le_one (db : DB) (dev d : String)
    (h : attemptKeysNodup db) : countAttemptsOn db dev d ≤ 1 :=
  filter_key_le_one db.user_question_attempts dev d h

/-- C2 counterexample: two same-device invocations race on the STEP 4
attempt insert; the loser's insert fails with the uniqueness conflict
and the handler throws — the request fails with a 500 `Attempt insert
error` response instead of re-reading and returning the existing
record. -/
theorem attempt_conflict_fails_counterexample :
    (runSched dupDevWorld dupDevSched).invs[1]? =
      some (.goc envD2 (.finished ⟨500, .errTs attemptInsertErrMsg⟩)) ∧
    countAttemptsOn (runSched dupDevWorld dupDevSched).db "dev1" "2025-03-01" = 1 := by
  decide

/-- C2 amended: the UNIQUE(device_id, question_date) constraint keeps
the attempt table at no more than one row per (device, date) under every
interleaving, but the STEP 4 insert applies no conflict-and-reread
recovery: a uniqueness conflict there fails the request with the 500
`Attempt insert error` response. -/
theorem attempt_row_unique_and_conflict_errors :
    (∀ (w0 : World) (sched : List Nat) (dev d : String),
      attemptKeysNodup w0.db →
      countAttemptsOn (runSched w0 sched).db dev d ≤ 1) ∧
    (∀ (env : GocEnv) (q : QuestionRow) (db : DB),
      attemptConflict db env.deviceId env.today = true →
      gocStep env (.attemptIns q) db =
        (.finished ⟨500, .errTs attemptInsertErrMsg⟩, db)) := by
  constructor
  · intro w0 sched dev d hnd
    exact countAttemptsOn_le_one _ dev d
      (runSched_db_pred attemptKeysNodup stepInv_anodup sched w0 hnd)
  · intro env q db hc
    simp only [gocStep]
    rw [if_pos hc]

theorem attempt_row_unique_and_conflict_errors_witness :
    countAttemptsOn (runSched dupDevWorld dupDevSched).db "dev1" "2025-03-01" ≤ 1 ∧
    gocStep envD2 (.attemptIns ⟨0, "2025-03-01", "q", "a", []⟩)
        ⟨[], [⟨1, "dev1", "2025-03-01", 0, false, false, 0⟩], 2⟩ =
      (.finished ⟨500, .errTs attemptInsertErrMsg⟩,
        ⟨[], [⟨1, "dev1", "2025-03-01", 0, false, false, 0⟩], 2⟩) :=
  ⟨attempt_row_unique_and_conflict_errors.1 dupDevWorld dupDevSched "dev1"
      "2025-03-01" (by unfold attemptKeysNodup; decide),
    attempt_row_unique_and_conflict_errors.2 envD2 ⟨0, "2025-03-01", "q", "a", []⟩
      ⟨[], [⟨1, "dev1", "2025-03-01", 0, false, false, 0⟩], 2⟩ (by decide)⟩

lemma markCompletedCore_spec (dev d : String) (now : Nat) (db : DB)
    (hnd : attemptKeysNodup db) (hc : completedIn db dev d) :
    ∃ a, (markCompletedCore dev d now db).1 = .ok a ∧
      a.has_attempted = true ∧ a.is_completed = true ∧
      completedIn (markCompletedCore dev d now db).2 dev d := by
  obtain ⟨x, hx, hx1, hx2, hx3⟩ := hc
  have hxkey : (x.device_id == dev && x.question_date == d) = true := by
    simp [hx1, hx2]
  have hmemf : x ∈ db.user_question_attempts.filter
      (fun a => a.device_id == dev && a.question_date == d) :=
    List.mem_filter.mpr ⟨hx, hxkey⟩
  have hlen1 : (db.user_question_attempts.filter
      (fun a => a.device_id == dev && a.question_date == d)).length = 1 := by
    have hle := filter_key_le_one db.user_question_attempts dev d hnd
    have hge : 0 < (db.user_question_attempts.filter
        (fun a => a.device_id == dev && a.question_date == d)).length :=
      List.length_pos.mpr (List.ne_nil_of_mem hmemf)
    omega
  obtain ⟨y, hy⟩ := List.length_eq_one.mp hlen1
  have hxy : x = y := by
    rw [hy] at hmemf
    exact List.mem_singleton.mp hmemf
  have hykey : (y.device_id == dev && y.question_date == d) = true := hxy ▸ hxkey
  have hymem : y ∈ db.user_question_attempts := hxy ▸ hx
  have hcong : db.user_question_attempts.filter
      ((fun a => a.device_id == dev && a.question_date == d) ∘
        (fun a => if a.device_id == dev && a.question_date == d then
          { a with has_attempted := true, is_completed := true, updated_at := now }
        else a)) =
      db.user_question_attempts.filter
        (fun a => a.device_id == dev && a.question_date == d) := by
    apply List.filter_congr
    intro a _
    by_cases hca : (a.device_id == dev && a.question_date == d) = true
    · simp only [Function.comp, hca, if_true]
    · simp only [Bool.not_eq_true] at hca
      simp only [Function.comp, hca, Bool.false_eq_true, if_false]
  have hfil : (db.user_question_attempts.map
      (fun a => if a.device_id == dev && a.question_date == d then
        { a with has_attempted := true, is_completed := true, updated_at := now }
      else a)).filter (fun a => a.device_id == dev && a.question_date == d) =
      [if y.device_id == dev && y.question_date == d then
        { y with has_attempted := true, is_completed := true, updated_at := now }
      else y] := by
    rw [List.filter_map, hcong, hy, List.map_cons, List.map_nil]
  have hcore1 : (markCompletedCore dev d now db).1 =
      .ok (if y.device_id == dev && y.question_date == d then
        { y with has_attempted := true, is_completed := true, updated_at := now }
      else y) := by
    unfold markCompletedCore
    dsimp only
    rw [hfil]
  refine ⟨_, hcore1, ?_, ?_, ?_⟩
  · simp [hykey]
  · simp [hykey]
  · refine ⟨if y.device_id == dev && y.question_date == d then
        { y with has_attempted := true, is_completed := true, updated_at := now }
      else y, ?_, ?_⟩
    · rw [markCompletedCore_attempts]
      exact List.mem_map_of_mem _ hymem
    · rw [Bool.and_eq_true, beq_iff_eq, beq_iff_eq] at hykey
      simp [hykey.1, hykey.2]

/-- C3: is_completed is monotonic — once a completed attempt row exists
for a (device, date), every interleaving of further handler invocations
leaves a completed row in place (attempt inserts are conflict-guarded
creations with fresh keys and the only update writes is_completed =
true) — and a repeated completion call on an already-completed record is
an idempotent no-op that succeeds, re-asserting has_attempted = true and
is_completed = true. -/
theorem completion_monotonic_and_idempotent :
    (∀ (w : World) (sched : List Nat) (dev d : String),
      completedIn w.db dev d → completedIn (runSched w sched).db dev d) ∧
    (∀ (dev d : String) (now : Nat) (db : DB),
      attemptKeysNodup db → completedIn db dev d →
      ∃ a, (markCompletedCore dev d now db).1 = .ok a ∧
        a.has_attempted = true ∧ a.is_completed = true ∧
        completedIn (markCompletedCore dev d now db).2 dev d) := by
  constructor
  · intro w sched dev d h
    exact runSched_db_pred (fun db => completedIn db dev d)
      (fun inv db hh => stepInv_completedIn inv db dev d hh) sched w h
  · intro dev d now db hnd hc
    exact markCompletedCore_spec dev d now db hnd hc

theorem completion_monotonic_and_idempotent_witness :
    completedIn (runSched ⟨dbCompleted, [.mc ⟨some "dev1", none⟩ "2025-03-01" 7 none]⟩
      [0]).db "dev1" "2025-03-01" ∧
    (∃ a, (markCompletedCore "dev1" "2025-03-01" 7 dbCompleted).1 = .ok a ∧
      a.has_attempted = true ∧ a.is_completed = true ∧
      completedIn (markCompletedCore "dev1" "2025-03-01" 7 dbCompleted).2
        "dev1" "2025-03-01") :=
  ⟨completion_monotonic_and_idempotent.1
      ⟨dbCompleted, [.mc ⟨some "dev1", none⟩ "2025-03-01" 7 none]⟩ [0]
      "dev1" "2025-03-01" (by unfold completedIn; decide),
    completion_monotonic_and_idempotent.2 "dev1" "2025-03-01" 7 dbCompleted
      (by unfold attemptKeysNodup; decide) (by unfold completedIn; decide)⟩

lemma markCompletedCore_none (dev d : String) (now : Nat) (db : DB)
    (h : countAttemptsOn db dev d = 0) :
    markCompletedCore dev d now db = (.error pgrstNoRowMsg, db) := by
  have hfil0 : db.user_question_attempts.filter
      (fun a => a.device_id == dev && a.question_date == d) = [] :=
    List.length_eq_zero.mp h
  have hnomatch := List.filter_eq_nil_iff.mp hfil0
  have hid : db.user_question_attempts.map
      (fun a => if a.device_id == dev && a.question_date == d then
        { a with has_attempted := true, is_completed := true, updated_at := now }
      else a) = db.user_question_attempts := by
    have hcong : db.user_question_attempts.map
        (fun a => if a.device_id == dev && a.question_date == d then
          { a with has_attempted := true, is_completed := true, updated_at := now }
        else a) = db.user_question_attempts.map id := by
      apply List.map_congr_left
      intro a ha
      have hfalse : ¬ (a.device_id == dev && a.question_date == d) = true :=
        hnomatch a ha
      simp only [Bool.not_eq_true] at hfalse
      simp [hfalse]
    rw [hcong, List.map_id]
  have hfilu : (db.user_question_attempts.map
      (fun a => if a.device_id == dev && a.question_date == d then
        { a with has_attempted := true, is_completed := true, updated_at := now }
      else a)).filter (fun a => a.device_id == dev && a.question_date == d) = [] := by
    rw [hid, hfil0]
  unfold markCompletedCore
  dsimp only
  rw [hfilu, hid]

/-- C8 counterexample: the completion handler bundled in
mark-question-completed answers the missing-record failure with the body
`JSON.stringify of an object with only an error field` — there is no
timestamp field, so the claimed `error, timestamp` body shape is wrong
for this handler. -/
theorem completion_error_body_counterexample :
    (markQuestionCompletedHandler ⟨some "dev1", none⟩ "2025-03-01" 0 emptyDB).1 =
      ⟨500, .errPlain "Failed to mark question as completed"⟩ ∧
    ∀ m, (markQuestionCompletedHandler ⟨some "dev1", none⟩ "2025-03-01" 0
      emptyDB).1.body ≠ .errTs m := by
  refine ⟨by decide, ?_⟩
  intro m hm
  have h1 : (markQuestionCompletedHandler ⟨some "dev1", none⟩ "2025-03-01" 0
      emptyDB).1.body = .errPlain "Failed to mark question as completed" := by decide
  rw [h1] at hm
  exact RespBody.noConfusion hm

/-- C8 amended: a completion call for a (device, date) with no attempt
record fails with status 500 and creates no record (the database is
returned unchanged); the standalone mark-completed handler's body is the
two-field error-and-timestamp object, while the completion handler in
mark-question-completed returns an error-only body without a
timestamp. -/
theorem completion_without_record_fails (h : Headers) (today : String)
    (now : Nat) (db : DB)
    (hmc : countAttemptsOn db (mcDeviceId h) today = 0)
    (hmqc : countAttemptsOn db (mqcDeviceId h) today = 0) :
    markCompletedHandler h today now db =
      (⟨500, .errTs ("Failed to mark question as completed: " ++ pgrstNoRowMsg)⟩,
        db) ∧
    markQuestionCompletedHandler h today now db =
      (⟨500, .errPlain "Failed to mark question as completed"⟩, db) := by
  constructor
  · unfold markCompletedHandler
    rw [markCompletedCore_none _ _ now db hmc]
  · unfold markQuestionCompletedHandler
    rw [markCompletedCore_none _ _ now db hmqc]

theorem completion_without_record_fails_witness :
    markCompletedHandler ⟨some "dev9", none⟩ "2025-03-01" 3 emptyDB =
      (⟨500, .errTs ("Failed to mark question as completed: " ++ pgrstNoRowMsg)⟩,
        emptyDB) ∧
    markQuestionCompletedHandler ⟨some "dev9", none⟩ "2025-03-01" 3 emptyDB =
      (⟨500, .errPlain "Failed to mark question as completed"⟩, emptyDB) :=
  completion_without_record_fails ⟨some "dev9", none⟩ "2025-03-01" 3 emptyDB
    (by decide) (by decide)

/-- C9: the three handlers derive the device identifier differently.
With no x-device-id header and a forwarded-for header present, the
completion handler in mark-question-completed uses the forwarded-for
value while the get-or-create and mark-completed handlers use the
literal string anonymous; consequently, after a get-or-create request
with those headers creates the attempt row for device `anonymous`, the
completion call with the same headers addresses device `203.0.113.7`,
finds no record, fails with status 500, and leaves the `anonymous` row
uncompleted. -/
theorem deviceId_fallbacks_differ :
    mqcDeviceId hFwd = "203.0.113.7" ∧
    gocDeviceId hFwd = "anonymous" ∧
    mcDeviceId hFwd = "anonymous" ∧
    mqcDeviceId hFwd ≠ gocDeviceId hFwd ∧
    mqcDeviceId hFwd ≠ mcDeviceId hFwd ∧
    countAttemptsOn dbAnonAttempt "anonymous" "2025-03-01" = 1 ∧
    countAttemptsOn dbAnonAttempt (mqcDeviceId hFwd) "2025-03-01" = 0 ∧
    (markQuestionCompletedHandler hFwd "2025-03-01" 5 dbAnonAttempt).1.status = 500 ∧
    (markQuestionCompletedHandler hFwd "2025-03-01" 5 dbAnonAttempt).2 =
      dbAnonAttempt ∧
    ¬ completedIn (markQuestionCompletedHandler hFwd "2025-03-01" 5
      dbAnonAttempt).2 "anonymous" "2025-03-01" := by
  refine ⟨rfl, rfl, rfl, by decide, by decide, by decide, by decide, by decide,
    by decide, ?_⟩
  unfold completedIn
  decide

/-- C10: in the 23505 recovery path the error of the re-query is
discarded; when the re-query fails (yields no data), questionData stays
null and building the attempt record dereferences null, so the
invocation answers 500 instead of returning the winner's record — here
invocation B loses the insert race against A, its recovery re-query
fails, and it finishes with the 500 response while the winner's row is
persisted. -/
theorem recovery_requery_error_unhandled :
    (runSched raceWorld raceSched).invs[1]? =
      some (.goc envLoser (.finished ⟨500, .errTs nullDerefMsg⟩)) ∧
    selectQuestion (runSched raceWorld raceSched).db "2025-03-01" =
      some ⟨0, "2025-03-01", "Which planet is red?", "Mars",
        ["Venus", "Pluto"]⟩ := by
  decide
